import Mathlib

/-!
# Verification of the deposit amounts engine (`getDepositAmounts`)

Shallow embedding of `src/domain/synthetics/trade/utils/deposit.ts`
(`getDepositAmounts` and `getMarketTokenAmountByCollateral`).

JS `bigint` values are modelled as `Int`.  Division sites follow the spec's
arithmetic primitives (§4.3): `mulDiv` and the unit conversions use floor
division; `BigInt` division by zero throws in JS, and a `!`-asserted
conversion that is actually `undefined` poisons the result, so both failure
modes are modelled by `Option` (`none` = the call throws or the returned
record carries an undefined field).

The low-level helpers (`bigMath.mulDiv`, `convertToUsd`,
`convertToTokenAmount`, `getMidPrice`, `applyFactor`, `getSwapFee`,
`getPriceImpactForSwap`, `applySwapImpactWithCap`, `usdToMarketTokenAmount`,
`marketTokenAmountToUsd`) are imported by `deposit.ts` from library modules
that are not part of the sources under verification; they are modelled from
the spec (§4.3, §7) as documented on each definition.
-/

namespace GmxDeposit

/-- Bid/ask price snapshot of a token (integer fixed-point USD-per-unit). -/
structure TokenPrices where
  minPrice : Int
  maxPrice : Int
deriving Repr, DecidableEq

/-- Immutable token snapshot: decimal count and current prices. -/
structure TokenData where
  decimals : Nat
  prices : TokenPrices
deriving Repr, DecidableEq

/-- GLV vault info: the index token from which the vault token's price is derived. -/
structure GlvMarketInfo where
  indexToken : TokenData
deriving Repr, DecidableEq

/-- Market snapshot.  Pool amounts are collateral-token base units.

Modelled from the spec: the spec (§3, §4.3) requires pool amounts, swap fee
factors differing by impact direction, a price-impact model producing a
signed USD delta from the long/short USD legs, a pool-derived maximum for
impact capping, and a market-token mint price; the spec fixes no formula
for the impact model or the impact budget, so both are carried as fields. -/
structure MarketInfo where
  longPoolAmount : Int
  shortPoolAmount : Int
  swapFeeFactorForPositiveImpact : Int
  swapFeeFactorForNegativeImpact : Int
  /-- signed USD impact delta as a function of the long/short USD legs (§4.3). -/
  priceImpactModel : Int → Int → Int
  /-- pool-derived maximum impact amount available for a given collateral token (§4.3). -/
  swapImpactPoolAmount : TokenData → Int
  /-- the market's current mint price (§4.1a: "via the market's current mint price"). -/
  marketTokenMintPrice : Int

/-- Output record of the deposit calculator (field-for-field the source's
`DepositAmounts`, declared at `deposit.ts:44`-`54`). -/
structure DepositAmounts where
  longTokenAmount : Int
  longTokenUsd : Int
  shortTokenAmount : Int
  shortTokenUsd : Int
  marketTokenAmount : Int
  marketTokenUsd : Int
  swapFeeUsd : Int
  uiFeeUsd : Int
  swapPriceImpactDeltaUsd : Int
deriving Repr, DecidableEq

/-- The all-zero result the source initialises `values` with. -/
def zeroDepositAmounts : DepositAmounts :=
  { longTokenAmount := 0, longTokenUsd := 0, shortTokenAmount := 0, shortTokenUsd := 0
    marketTokenAmount := 0, marketTokenUsd := 0, swapFeeUsd := 0, uiFeeUsd := 0
    swapPriceImpactDeltaUsd := 0 }

/-- Input strategy selector (§3 AmountsRequest). -/
inductive Strategy where
  | byCollaterals
  | byMarketToken
deriving Repr, DecidableEq

/-- The parameter object of `getDepositAmounts` (`deposit.ts:9`-`24`). -/
structure DepositParams where
  marketInfo : MarketInfo
  marketToken : TokenData
  longToken : TokenData
  shortToken : TokenData
  longTokenAmount : Int
  shortTokenAmount : Int
  marketTokenAmount : Int
  strategy : Strategy
  includeLongToken : Bool
  includeShortToken : Bool
  uiFeeFactor : Int
  forShift : Bool
  isMarketTokenDeposit : Bool
  vaultInfo : Option GlvMarketInfo

/-- Modelled from the spec (§4.3): factor precision for `applyFactor`
(`feeUsd = notionalUsd * feeFactor / 1e<factor-precision>`); the engine's
factors are 30-decimal fixed point. -/
def PRECISION : Int := 10 ^ 30

/-- `10^decimals`, the base-unit scale of a token. -/
def expandDecimals (decimals : Nat) : Int := (10 : Int) ^ decimals

/-- Modelled from the spec (§4.3): fixed-point multiply-divide
`a*b/denominator` with floor division; a zero denominator is a BigInt
division-by-zero failure, modelled as `none`. -/
def mulDiv (a b denominator : Int) : Option Int :=
  if denominator = 0 then none else some (a * b / denominator)

/-- Modelled from the spec (§4.3):
`toUsd(amount, decimals, price) = amount * price / 10^decimals`. -/
def convertToUsd (tokenAmount : Int) (tokenDecimals : Nat) (price : Int) : Int :=
  tokenAmount * price / expandDecimals tokenDecimals

/-- Modelled from the spec (§4.3):
`toTokenAmount(usd, decimals, price) = usd * 10^decimals / price`, failing
(`none`) when `price == 0`, which callers treat as "cannot price this leg". -/
def convertToTokenAmount (usd : Int) (tokenDecimals : Nat) (price : Int) : Option Int :=
  if price = 0 then none else some (usd * expandDecimals tokenDecimals / price)

/-- Modelled from the spec (§4.3): mid price = arithmetic mean of min and max. -/
def getMidPrice (prices : TokenPrices) : Int :=
  (prices.minPrice + prices.maxPrice) / 2

/-- Modelled from the spec (§4.3): `value * factor / 1e<factor-precision>`. -/
def applyFactor (value factor : Int) : Int :=
  value * factor / PRECISION

/-- Modelled from the spec (§4.3): swap fee as a factor of notional USD, the
factor differing with the impact direction of the swap. -/
def getSwapFee (marketInfo : MarketInfo) (swapAmount : Int) (forPositiveImpact : Bool) : Int :=
  applyFactor swapAmount
    (if forPositiveImpact then marketInfo.swapFeeFactorForPositiveImpact
     else marketInfo.swapFeeFactorForNegativeImpact)

/-- Modelled from the spec (§4.3): signed USD impact delta for the implied
long/short rebalance; the spec fixes no formula, so the market's impact
model field is applied to the two USD legs. -/
def getPriceImpactForSwap (marketInfo : MarketInfo) (_longToken _shortToken : TokenData)
    (longUsd shortUsd : Int) : Int :=
  marketInfo.priceImpactModel longUsd shortUsd

/-- Result of `applySwapImpactWithCap`: the (possibly capped) impact amount
in token units, and whether capping occurred (§4.3). -/
structure SwapImpactResult where
  impactDeltaAmount : Int
  capped : Bool
deriving Repr, DecidableEq

/-- Modelled from the spec (§4.3): convert the signed USD impact delta to
token units (maximum price for a rebate paid out of the pool, minimum price
for a cost charged to the user), clamping a positive amount at the
pool-derived maximum; a zero price contributes zero (§7 MissingPriceError
policy). -/
def applySwapImpactWithCap (marketInfo : MarketInfo) (token : TokenData)
    (priceImpactDeltaUsd : Int) : SwapImpactResult :=
  if priceImpactDeltaUsd > 0 then
    let impactDeltaAmount :=
      (convertToTokenAmount priceImpactDeltaUsd token.decimals token.prices.maxPrice).getD 0
    let maxImpactAmount := marketInfo.swapImpactPoolAmount token
    if impactDeltaAmount > maxImpactAmount then
      { impactDeltaAmount := maxImpactAmount, capped := true }
    else
      { impactDeltaAmount := impactDeltaAmount, capped := false }
  else
    { impactDeltaAmount :=
        (convertToTokenAmount priceImpactDeltaUsd token.decimals token.prices.minPrice).getD 0
      capped := false }

/-- Modelled from the spec (§4.1a, §4.3): mint amount = USD value converted
into market-token units via the market's current mint price; a zero mint
price yields a zero contribution (§7 MissingPriceError policy). -/
def usdToMarketTokenAmount (marketInfo : MarketInfo) (marketToken : TokenData)
    (usdValue : Int) : Int :=
  (convertToTokenAmount usdValue marketToken.decimals marketInfo.marketTokenMintPrice).getD 0

/-- Modelled from the spec (§4.1 byMarketToken step 2, §4.3): the standard
market pricing function valuing a market-token amount in USD at the
market's mint price. -/
def marketTokenAmountToUsd (marketInfo : MarketInfo) (marketToken : TokenData)
    (amount : Int) : Int :=
  convertToUsd amount marketToken.decimals marketInfo.marketTokenMintPrice

/-- `getMarketTokenAmountByCollateral` (`deposit.ts:244`-`288`): per-side
minting helper.  The two fee conversions use `!` on a possibly-undefined
result; an undefined value would poison the subsequent arithmetic, modelled
as `none`. -/
def getMarketTokenAmountByCollateral (marketInfo : MarketInfo) (marketToken : TokenData)
    (tokenIn tokenOut : TokenData) (amount priceImpactDeltaUsd swapFeeUsd uiFeeUsd : Int) :
    Option Int := do
  let swapFeeAmount ← convertToTokenAmount swapFeeUsd tokenIn.decimals tokenIn.prices.minPrice
  let uiFeeAmount ← convertToTokenAmount uiFeeUsd tokenIn.decimals tokenIn.prices.minPrice
  let amountInAfterFees := amount - swapFeeAmount - uiFeeAmount
  if priceImpactDeltaUsd > 0 then
    let positiveImpactAmount :=
      (applySwapImpactWithCap marketInfo tokenOut priceImpactDeltaUsd).impactDeltaAmount
    let usdValue := convertToUsd positiveImpactAmount tokenOut.decimals tokenOut.prices.maxPrice
    let bonusMintAmount := usdToMarketTokenAmount marketInfo marketToken usdValue
    let usdValueIn := convertToUsd amountInAfterFees tokenIn.decimals tokenIn.prices.minPrice
    return bonusMintAmount + usdToMarketTokenAmount marketInfo marketToken usdValueIn
  else
    let negativeImpactAmount :=
      (applySwapImpactWithCap marketInfo tokenIn priceImpactDeltaUsd).impactDeltaAmount
    let adjustedAmountIn := amountInAfterFees + negativeImpactAmount
    let usdValueIn := convertToUsd adjustedAmountIn tokenIn.decimals tokenIn.prices.minPrice
    return usdToMarketTokenAmount marketInfo marketToken usdValueIn

/-- The per-side fee-and-mint block of the byCollaterals strategy
(`deposit.ts:93`-`114` for the long side, `116`-`137` for the short side):
given the side's USD value, the total deposit USD and the total impact
delta, returns this side's `(swapFeeUsd, uiFeeUsd, mintAmount)`
contribution, or `(0, 0, 0)` when the side's USD value is not positive. -/
def collateralSideContribution (p : DepositParams) (tokenIn tokenOut : TokenData)
    (amount sideUsd totalDepositUsd swapPriceImpactDeltaUsd : Int) :
    Option (Int × Int × Int) :=
  if sideUsd > 0 then do
    let swapFeeUsd :=
      if p.forShift then 0
      else getSwapFee p.marketInfo sideUsd (swapPriceImpactDeltaUsd > 0)
    let uiFeeUsd := applyFactor sideUsd p.uiFeeFactor
    let impactShare ← mulDiv swapPriceImpactDeltaUsd sideUsd totalDepositUsd
    let mintAmount ← getMarketTokenAmountByCollateral p.marketInfo p.marketToken
      tokenIn tokenOut amount impactShare swapFeeUsd uiFeeUsd
    return (swapFeeUsd, uiFeeUsd, mintAmount)
  else
    return (0, 0, 0)

/-- The vault wrapping step of the byCollaterals strategy
(`deposit.ts:141`-`154`): convert the market-token USD (or, for
market-token deposits, the raw long-token USD at its minimum price) into
vault-token units at the vault's maximum index price, overwriting
`marketTokenAmount` only when the conversion yields a strictly positive
amount. -/
def wrapToVaultAmount (p : DepositParams) (vaultInfo : GlvMarketInfo)
    (marketTokenAmount marketTokenUsd : Int) : Int :=
  let glvPrice := vaultInfo.indexToken.prices.maxPrice
  let usdForGlv :=
    if p.isMarketTokenDeposit then
      convertToUsd p.longTokenAmount p.longToken.decimals p.longToken.prices.minPrice
    else marketTokenUsd
  match convertToTokenAmount usdForGlv vaultInfo.indexToken.decimals glvPrice with
  | some glvAmount => if glvAmount > 0 then glvAmount else marketTokenAmount
  | none => marketTokenAmount

/-- `values.longTokenUsd` of the byCollaterals strategy (`deposit.ts:62`):
the long input amount valued at its mid price. -/
def collateralLongTokenUsd (p : DepositParams) : Int :=
  convertToUsd p.longTokenAmount p.longToken.decimals (getMidPrice p.longToken.prices)

/-- `values.shortTokenUsd` of the byCollaterals strategy (`deposit.ts:81`):
the short input amount valued at its mid price. -/
def collateralShortTokenUsd (p : DepositParams) : Int :=
  convertToUsd p.shortTokenAmount p.shortToken.decimals (getMidPrice p.shortToken.prices)

/-- `values.swapPriceImpactDeltaUsd` of the byCollaterals strategy
(`deposit.ts:83`-`89`). -/
def collateralSwapImpactDeltaUsd (p : DepositParams) : Int :=
  getPriceImpactForSwap p.marketInfo p.longToken p.shortToken
    (collateralLongTokenUsd p) (collateralShortTokenUsd p)

/-- The byCollaterals strategy past the zero short-circuit and the GM→GLV
shortcut (`deposit.ts:80`-`154`). -/
def depositByCollateralsMain (p : DepositParams) : Option DepositAmounts := do
  let (longSwapFeeUsd, longUiFeeUsd, longMintAmount) ←
    collateralSideContribution p p.longToken p.shortToken p.longTokenAmount
      (collateralLongTokenUsd p) (collateralLongTokenUsd p + collateralShortTokenUsd p)
      (collateralSwapImpactDeltaUsd p)
  let (shortSwapFeeUsd, shortUiFeeUsd, shortMintAmount) ←
    collateralSideContribution p p.shortToken p.longToken p.shortTokenAmount
      (collateralShortTokenUsd p) (collateralLongTokenUsd p + collateralShortTokenUsd p)
      (collateralSwapImpactDeltaUsd p)
  let marketTokenAmount := longMintAmount + shortMintAmount
  let marketTokenUsd :=
    convertToUsd marketTokenAmount p.marketToken.decimals p.marketToken.prices.minPrice
  let finalMarketTokenAmount :=
    match p.vaultInfo with
    | some vaultInfo => wrapToVaultAmount p vaultInfo marketTokenAmount marketTokenUsd
    | none => marketTokenAmount
  return { longTokenAmount := p.longTokenAmount, longTokenUsd := collateralLongTokenUsd p
           shortTokenAmount := p.shortTokenAmount, shortTokenUsd := collateralShortTokenUsd p
           marketTokenAmount := finalMarketTokenAmount, marketTokenUsd := marketTokenUsd
           swapFeeUsd := longSwapFeeUsd + shortSwapFeeUsd
           uiFeeUsd := longUiFeeUsd + shortUiFeeUsd
           swapPriceImpactDeltaUsd := collateralSwapImpactDeltaUsd p }

/-- The byCollaterals strategy (`deposit.ts:56`-`154`): zero short-circuit,
then the GM→GLV no-fee shortcut (`deposit.ts:67`-`78`), else the main path. -/
def depositByCollaterals (p : DepositParams) : Option DepositAmounts :=
  if p.longTokenAmount = 0 ∧ p.shortTokenAmount = 0 then
    some zeroDepositAmounts
  else
    let longTokenPrice := getMidPrice p.longToken.prices
    let longTokenUsd := convertToUsd p.longTokenAmount p.longToken.decimals longTokenPrice
    match p.vaultInfo, p.isMarketTokenDeposit with
    | some vaultInfo, true =>
      let gmTokenUsd := convertToUsd p.longTokenAmount p.longToken.decimals longTokenPrice
      let glvTokenAmount :=
        (convertToTokenAmount gmTokenUsd vaultInfo.indexToken.decimals
          vaultInfo.indexToken.prices.minPrice).getD 0
      let glvTokenUsd :=
        convertToUsd glvTokenAmount vaultInfo.indexToken.decimals
          vaultInfo.indexToken.prices.minPrice
      some { zeroDepositAmounts with
             longTokenAmount := p.longTokenAmount, longTokenUsd := longTokenUsd
             marketTokenAmount := glvTokenAmount, marketTokenUsd := glvTokenUsd }
    | _, _ => depositByCollateralsMain p

/-- The proportional split by previous holdings (`deposit.ts:193`-`194`):
`longTokenUsd = mulDiv(marketTokenUsd, prevLongTokenUsd, prevSumUsd)`,
`shortTokenUsd = marketTokenUsd - longTokenUsd`. -/
def splitByPrevHoldings (marketTokenUsd prevLongTokenUsd prevShortTokenUsd : Int) :
    Option (Int × Int) := do
  let longTokenUsd ← mulDiv marketTokenUsd prevLongTokenUsd (prevLongTokenUsd + prevShortTokenUsd)
  return (longTokenUsd, marketTokenUsd - longTokenUsd)

/-- The fee and price-impact redistribution block of the byMarketToken
strategy (`deposit.ts:217`-`235`): when the pre-fee total is positive, add
each side's proportional share of the total fee; then, only when the
impact delta is negative (and the fee-adjusted total is positive), add each
side's proportional share of the impact magnitude. -/
def adjustDepositUsdForFeesAndImpact
    (longTokenUsd shortTokenUsd totalFee swapPriceImpactDeltaUsd : Int) :
    Option (Int × Int) :=
  let totalDepositUsd := longTokenUsd + shortTokenUsd
  if totalDepositUsd > 0 then do
    let longFeeShare ← mulDiv totalFee longTokenUsd totalDepositUsd
    let shortFeeShare ← mulDiv totalFee shortTokenUsd totalDepositUsd
    let longTokenUsd1 := longTokenUsd + longFeeShare
    let shortTokenUsd1 := shortTokenUsd + shortFeeShare
    let totalDepositUsd1 := longTokenUsd1 + shortTokenUsd1
    if swapPriceImpactDeltaUsd < 0 ∧ totalDepositUsd1 > 0 then do
      let longImpactShare ← mulDiv (-swapPriceImpactDeltaUsd) longTokenUsd1 totalDepositUsd1
      let shortImpactShare ← mulDiv (-swapPriceImpactDeltaUsd) shortTokenUsd1 totalDepositUsd1
      return (longTokenUsd1 + longImpactShare, shortTokenUsd1 + shortImpactShare)
    else
      return (longTokenUsd1, shortTokenUsd1)
  else
    return (longTokenUsd, shortTokenUsd)

/-- Resolution of `marketTokenUsd` in the byMarketToken strategy
(`deposit.ts:161`-`166`): at the vault's minimum index price when
vault-wrapped, else via the standard market pricing function. -/
def byMarketTokenUsd (p : DepositParams) : Int :=
  match p.vaultInfo with
  | some vaultInfo =>
    convertToUsd p.marketTokenAmount vaultInfo.indexToken.decimals
      vaultInfo.indexToken.prices.minPrice
  | none => marketTokenAmountToUsd p.marketInfo p.marketToken p.marketTokenAmount

/-- The long/short USD split of the byMarketToken strategy
(`deposit.ts:177`-`199`): pool-proportional for shifts, else proportional
to previous holdings when both sides are included and their sum is
positive, else 100% to the single included side, else zero. -/
def byMarketTokenSplit (p : DepositParams) (marketTokenUsd : Int) : Option (Int × Int) :=
  if p.forShift then do
    let longPoolUsd := convertToUsd p.marketInfo.longPoolAmount p.longToken.decimals
      p.longToken.prices.maxPrice
    let shortPoolUsd := convertToUsd p.marketInfo.shortPoolAmount p.shortToken.decimals
      p.shortToken.prices.maxPrice
    let totalPoolUsd := longPoolUsd + shortPoolUsd
    let longTokenUsd ← mulDiv marketTokenUsd longPoolUsd totalPoolUsd
    let shortTokenUsd ← mulDiv marketTokenUsd shortPoolUsd totalPoolUsd
    pure (longTokenUsd, shortTokenUsd)
  else
    let prevLongTokenUsd := convertToUsd p.longTokenAmount p.longToken.decimals
      (getMidPrice p.longToken.prices)
    let prevShortTokenUsd := convertToUsd p.shortTokenAmount p.shortToken.decimals
      (getMidPrice p.shortToken.prices)
    let prevSumUsd := prevLongTokenUsd + prevShortTokenUsd
    if p.includeLongToken ∧ p.includeShortToken ∧ prevSumUsd > 0 then
      splitByPrevHoldings marketTokenUsd prevLongTokenUsd prevShortTokenUsd
    else if p.includeLongToken then
      pure (marketTokenUsd, 0)
    else if p.includeShortToken then
      pure (0, marketTokenUsd)
    else
      pure (0, 0)

/-- The byMarketToken strategy (`deposit.ts:155`-`239`).  The `!`-asserted
conversions at `deposit.ts:169`-`173` and `237`-`238` leave an undefined
field when the price is zero, modelled as `none`. -/
def depositByMarketToken (p : DepositParams) : Option DepositAmounts :=
  if p.marketTokenAmount = 0 then
    some zeroDepositAmounts
  else
    let marketTokenUsd := byMarketTokenUsd p
    if p.isMarketTokenDeposit ∧ p.vaultInfo.isSome then
      (convertToTokenAmount marketTokenUsd p.marketToken.decimals
        p.marketToken.prices.minPrice).map fun longTokenAmount =>
        { zeroDepositAmounts with
          marketTokenAmount := p.marketTokenAmount, marketTokenUsd := marketTokenUsd
          longTokenAmount := longTokenAmount }
    else do
      let (longTokenUsd0, shortTokenUsd0) ← byMarketTokenSplit p marketTokenUsd
      let swapPriceImpactDeltaUsd :=
        getPriceImpactForSwap p.marketInfo p.longToken p.shortToken longTokenUsd0 shortTokenUsd0
      let swapFeeUsd :=
        if p.forShift then 0
        else getSwapFee p.marketInfo marketTokenUsd (swapPriceImpactDeltaUsd > 0)
      let uiFeeUsd := applyFactor marketTokenUsd p.uiFeeFactor
      let totalFee := swapFeeUsd + uiFeeUsd
      let (longTokenUsd, shortTokenUsd) ←
        adjustDepositUsdForFeesAndImpact longTokenUsd0 shortTokenUsd0 totalFee
          swapPriceImpactDeltaUsd
      let longTokenAmount ← convertToTokenAmount longTokenUsd p.longToken.decimals
        (getMidPrice p.longToken.prices)
      let shortTokenAmount ← convertToTokenAmount shortTokenUsd p.shortToken.decimals
        (getMidPrice p.shortToken.prices)
      return { longTokenAmount := longTokenAmount, longTokenUsd := longTokenUsd
               shortTokenAmount := shortTokenAmount, shortTokenUsd := shortTokenUsd
               marketTokenAmount := p.marketTokenAmount, marketTokenUsd := marketTokenUsd
               swapFeeUsd := swapFeeUsd, uiFeeUsd := uiFeeUsd
               swapPriceImpactDeltaUsd := swapPriceImpactDeltaUsd }

/-- `getDepositAmounts` (`deposit.ts:9`-`242`), dispatching on the strategy. -/
def getDepositAmounts (p : DepositParams) : Option DepositAmounts :=
  match p.strategy with
  | .byCollaterals => depositByCollaterals p
  | .byMarketToken => depositByMarketToken p

/-! ### Concrete inputs used by counterexamples and witnesses -/

/-- A token snapshot with the given decimals and min/max prices. -/
def mkToken (decimals : Nat) (pmin pmax : Int) : TokenData :=
  { decimals := decimals, prices := { minPrice := pmin, maxPrice := pmax } }

/-- A market snapshot with the given fee factors, impact model, impact
budget, mint price and pool amounts. -/
def mkMarketInfo (swapFeePos swapFeeNeg : Int) (impact : Int → Int → Int)
    (impactBudget mintPrice longPool shortPool : Int) : MarketInfo :=
  { longPoolAmount := longPool, shortPoolAmount := shortPool
    swapFeeFactorForPositiveImpact := swapFeePos
    swapFeeFactorForNegativeImpact := swapFeeNeg
    priceImpactModel := impact
    swapImpactPoolAmount := fun _ => impactBudget
    marketTokenMintPrice := mintPrice }

/-- A fee-free, impact-free market with unit mint price and zero pools. -/
def trivialMarketInfo : MarketInfo := mkMarketInfo 0 0 (fun _ _ => 0) 0 1 0 0

/-- C1 counterexample input: a valid byMarketToken shift with empty pools
(`totalPoolUsd == 0`), otherwise positive prices everywhere. -/
def inputShiftEmptyPools : DepositParams :=
  { marketInfo := trivialMarketInfo
    marketToken := mkToken 0 1 1, longToken := mkToken 0 1 1, shortToken := mkToken 0 1 1
    longTokenAmount := 0, shortTokenAmount := 0, marketTokenAmount := 1
    strategy := .byMarketToken, includeLongToken := true, includeShortToken := true
    uiFeeFactor := 0, forShift := true, isMarketTokenDeposit := false, vaultInfo := none }

/-- C2 counterexample input: a byCollaterals deposit whose UI fee (200% of
notional) exceeds the input amount, with zero swap fee and zero impact. -/
def inputOverFee : DepositParams :=
  { marketInfo := trivialMarketInfo
    marketToken := mkToken 0 1 1, longToken := mkToken 0 2 2, shortToken := mkToken 0 1 1
    longTokenAmount := 10, shortTokenAmount := 0, marketTokenAmount := 0
    strategy := .byCollaterals, includeLongToken := true, includeShortToken := true
    uiFeeFactor := 2 * 10 ^ 30, forShift := false, isMarketTokenDeposit := false
    vaultInfo := none }

/-- C3 counterexample input: a fee-free byCollaterals deposit into a vault
(index price 5), so the GLV wrap overwrites `marketTokenAmount`. -/
def inputVaultWrap : DepositParams :=
  { marketInfo := trivialMarketInfo
    marketToken := mkToken 0 1 1, longToken := mkToken 0 2 2, shortToken := mkToken 0 1 1
    longTokenAmount := 10, shortTokenAmount := 0, marketTokenAmount := 0
    strategy := .byCollaterals, includeLongToken := true, includeShortToken := true
    uiFeeFactor := 0, forShift := false, isMarketTokenDeposit := false
    vaultInfo := some { indexToken := mkToken 0 5 5 } }

/-- C4 counterexample input (strictness defect): positive notional so small
that a UI fee factor step of 1 leaves the floored fee at zero. -/
def inputTinyNotional : DepositParams :=
  { marketInfo := trivialMarketInfo
    marketToken := mkToken 0 1 1, longToken := mkToken 0 2 2, shortToken := mkToken 0 1 1
    longTokenAmount := 1, shortTokenAmount := 0, marketTokenAmount := 0
    strategy := .byCollaterals, includeLongToken := true, includeShortToken := true
    uiFeeFactor := 0, forShift := false, isMarketTokenDeposit := false, vaultInfo := none }

/-- C4 counterexample input (same call with uiFeeFactor 1 instead of 0). -/
def inputTinyNotionalFee : DepositParams :=
  { inputTinyNotional with uiFeeFactor := 1 }

/-- C4 counterexample input (vault defect): vault with index price 11; with
no UI fee the mint of 20 USD wraps to 1 GLV, with a 50% UI fee the mint of
10 USD fails the positivity guard and stays 10 GM. -/
def inputVaultFeeJump : DepositParams :=
  { inputVaultWrap with vaultInfo := some { indexToken := mkToken 0 11 11 } }

/-- C4 counterexample input (same call with a 50% UI fee factor). -/
def inputVaultFeeJumpFee : DepositParams :=
  { inputVaultFeeJump with uiFeeFactor := 5 * 10 ^ 29 }

/-- C5 witness input: market-token (GM) deposit into a vault; GM price
1.00 USD, vault index price 2.00 USD (30-decimal fixed point), depositing
`100 * 10^18` GM; the vault index token has 8 decimals. -/
def inputGmToGlv : DepositParams :=
  { marketInfo := trivialMarketInfo
    marketToken := mkToken 18 (10 ^ 30) (10 ^ 30)
    longToken := mkToken 18 (10 ^ 30) (10 ^ 30)
    shortToken := mkToken 6 (10 ^ 30) (10 ^ 30)
    longTokenAmount := 100 * 10 ^ 18, shortTokenAmount := 0, marketTokenAmount := 0
    strategy := .byCollaterals, includeLongToken := true, includeShortToken := true
    uiFeeFactor := 0, forShift := false, isMarketTokenDeposit := true
    vaultInfo := some { indexToken := mkToken 8 (2 * 10 ^ 30) (2 * 10 ^ 30) } }

/-- C8 counterexample input: byMarketToken with equal previous holdings
L = S = 1 and marketTokenUsd = 1, no fees, no impact. -/
def inputEqualHoldings : DepositParams :=
  { marketInfo := trivialMarketInfo
    marketToken := mkToken 0 1 1, longToken := mkToken 0 1 1, shortToken := mkToken 0 1 1
    longTokenAmount := 1, shortTokenAmount := 1, marketTokenAmount := 1
    strategy := .byMarketToken, includeLongToken := true, includeShortToken := true
    uiFeeFactor := 0, forShift := false, isMarketTokenDeposit := false, vaultInfo := none }

/-- C10 counterexample input: byMarketToken with both sides excluded,
positive fee factors (1) and positive marketTokenUsd (1), whose floored
fees are both zero. -/
def inputExcludedSides : DepositParams :=
  { marketInfo := mkMarketInfo 1 1 (fun _ _ => 0) 0 1 0 0
    marketToken := mkToken 0 1 1, longToken := mkToken 0 1 1, shortToken := mkToken 0 1 1
    longTokenAmount := 0, shortTokenAmount := 0, marketTokenAmount := 1
    strategy := .byMarketToken, includeLongToken := false, includeShortToken := false
    uiFeeFactor := 1, forShift := false, isMarketTokenDeposit := false, vaultInfo := none }

/-- Witness fixture: market with unit mint price and impact budget 100. -/
def exCapMarket : MarketInfo := mkMarketInfo 0 0 (fun _ _ => 0) 100 1 0 0

/-- Witness fixture: input-side token, 0 decimals, prices 2/2. -/
def exTokenIn : TokenData := mkToken 0 2 2

/-- Witness fixture: output-side token, 0 decimals, prices 4/4. -/
def exTokenOut : TokenData := mkToken 0 4 4

/-- Witness fixture: market token, 0 decimals, prices 1/1. -/
def exMarketToken : TokenData := mkToken 0 1 1

/-- Zero-input byCollaterals call (C9 witness). -/
def inputZeroCollaterals : DepositParams :=
  { inputOverFee with longTokenAmount := 0, shortTokenAmount := 0 }

/-- Zero-input byMarketToken call (C9 witness). -/
def inputZeroMarketToken : DepositParams :=
  { inputEqualHoldings with marketTokenAmount := 0 }

/-! ### Arithmetic lemmas about the spec-modelled primitives -/

theorem expandDecimals_pos (d : Nat) : 0 < expandDecimals d := by
  unfold expandDecimals; positivity

theorem PRECISION_pos : (0 : Int) < PRECISION := by norm_num [PRECISION]

theorem convertToUsd_nonneg {a : Int} {d : Nat} {price : Int} (ha : 0 ≤ a) (hp : 0 ≤ price) :
    0 ≤ convertToUsd a d price :=
  Int.ediv_nonneg (mul_nonneg ha hp) (expandDecimals_pos d).le

theorem convertToUsd_mono {a b : Int} {d : Nat} {price : Int} (hp : 0 ≤ price) (h : a ≤ b) :
    convertToUsd a d price ≤ convertToUsd b d price :=
  Int.ediv_le_ediv (expandDecimals_pos d) (mul_le_mul_of_nonneg_right h hp)

theorem convertToTokenAmount_eq_some {price : Int} (u : Int) (d : Nat) (h : price ≠ 0) :
    convertToTokenAmount u d price = some (u * expandDecimals d / price) := by
  simp [convertToTokenAmount, h]

theorem convertToTokenAmount_getD_nonneg {u : Int} {d : Nat} {price : Int}
    (hu : 0 ≤ u) (hp : 0 ≤ price) : 0 ≤ (convertToTokenAmount u d price).getD 0 := by
  unfold convertToTokenAmount
  rcases eq_or_ne price 0 with h | h
  · simp [h]
  · have hpos : 0 < price := lt_of_le_of_ne hp (Ne.symm h)
    simp only [h, if_neg, ite_false, Option.getD_some]
    exact Int.ediv_nonneg (mul_nonneg hu (expandDecimals_pos d).le) hpos.le

theorem convertToTokenAmount_getD_mono {u v : Int} {d : Nat} {price : Int}
    (hp : 0 ≤ price) (h : u ≤ v) :
    (convertToTokenAmount u d price).getD 0 ≤ (convertToTokenAmount v d price).getD 0 := by
  unfold convertToTokenAmount
  rcases eq_or_ne price 0 with h0 | h0
  · simp [h0]
  · have hpos : 0 < price := lt_of_le_of_ne hp (Ne.symm h0)
    simp only [h0, ite_false, Option.getD_some]
    exact Int.ediv_le_ediv hpos (mul_le_mul_of_nonneg_right h (expandDecimals_pos d).le)

theorem applyFactor_nonneg {v f : Int} (hv : 0 ≤ v) (hf : 0 ≤ f) : 0 ≤ applyFactor v f :=
  Int.ediv_nonneg (mul_nonneg hv hf) PRECISION_pos.le

theorem applyFactor_mono {v f1 f2 : Int} (hv : 0 ≤ v) (h : f1 ≤ f2) :
    applyFactor v f1 ≤ applyFactor v f2 :=
  Int.ediv_le_ediv PRECISION_pos (mul_le_mul_of_nonneg_left h hv)

theorem applyFactor_strict {v f1 f2 : Int} (h : PRECISION ≤ v * (f2 - f1)) :
    applyFactor v f1 < applyFactor v f2 := by
  unfold applyFactor
  have h2 : v * f1 + 1 * PRECISION ≤ v * f2 := by nlinarith [h]
  calc v * f1 / PRECISION < v * f1 / PRECISION + 1 := by omega
    _ = (v * f1 + 1 * PRECISION) / PRECISION := by
        rw [Int.add_mul_ediv_right _ _ PRECISION_pos.ne']
    _ ≤ v * f2 / PRECISION := Int.ediv_le_ediv PRECISION_pos h2

theorem usdToMarketTokenAmount_nonneg {m : MarketInfo} {mt : TokenData} {u : Int}
    (hu : 0 ≤ u) (hm : 0 ≤ m.marketTokenMintPrice) : 0 ≤ usdToMarketTokenAmount m mt u :=
  convertToTokenAmount_getD_nonneg hu hm

theorem usdToMarketTokenAmount_mono {m : MarketInfo} {mt : TokenData} {u v : Int}
    (hm : 0 ≤ m.marketTokenMintPrice) (h : u ≤ v) :
    usdToMarketTokenAmount m mt u ≤ usdToMarketTokenAmount m mt v :=
  convertToTokenAmount_getD_mono hm h

theorem getSwapFee_nonneg {m : MarketInfo} {amt : Int} {b : Bool} (ha : 0 ≤ amt)
    (h1 : 0 ≤ m.swapFeeFactorForPositiveImpact) (h2 : 0 ≤ m.swapFeeFactorForNegativeImpact) :
    0 ≤ getSwapFee m amt b := by
  unfold getSwapFee
  cases b
  · exact applyFactor_nonneg ha (by simpa)
  · exact applyFactor_nonneg ha (by simpa)

theorem getMidPrice_nonneg {pr : TokenPrices} (h1 : 0 ≤ pr.minPrice) (h2 : 0 ≤ pr.maxPrice) :
    0 ≤ getMidPrice pr :=
  Int.ediv_nonneg (by omega) (by norm_num)

theorem getMidPrice_pos {pr : TokenPrices} (h1 : 0 < pr.minPrice) (h2 : 0 < pr.maxPrice) :
    0 < getMidPrice pr := by
  unfold getMidPrice
  have h : (1 : Int) * 2 ≤ pr.minPrice + pr.maxPrice := by omega
  exact lt_of_lt_of_le one_pos ((Int.le_ediv_iff_mul_le (by norm_num)).mpr h)

theorem mulDiv_eq_some {c : Int} (a b : Int) (h : c ≠ 0) :
    mulDiv a b c = some (a * b / c) := by
  simp [mulDiv, h]

theorem convertToUsd_zero (d : Nat) (price : Int) : convertToUsd 0 d price = 0 := by
  simp [convertToUsd]

theorem convertToTokenAmount_zero_getD (d : Nat) (price : Int) :
    (convertToTokenAmount 0 d price).getD 0 = 0 := by
  unfold convertToTokenAmount
  rcases eq_or_ne price 0 with h | h <;> simp [h]

theorem applyFactor_pos {v f : Int} (h : PRECISION ≤ v * f) : 0 < applyFactor v f := by
  have h0 : PRECISION ≤ v * (f - 0) := by simpa using h
  have := applyFactor_strict h0
  simpa [applyFactor] using this

/-! ### Structural lemmas about the per-side minting helper -/

theorem applySwapImpactWithCap_nonneg_of_pos {m : MarketInfo} {token : TokenData} {delta : Int}
    (hd : 0 < delta) (hmax : 0 ≤ token.prices.maxPrice)
    (hbudget : 0 ≤ m.swapImpactPoolAmount token) :
    0 ≤ (applySwapImpactWithCap m token delta).impactDeltaAmount := by
  unfold applySwapImpactWithCap
  rw [if_pos hd]
  dsimp only
  split
  · exact hbudget
  · exact convertToTokenAmount_getD_nonneg hd.le hmax

theorem getMarketTokenAmountByCollateral_pos_eq (m : MarketInfo) (mt tIn tOut : TokenData)
    (amount delta sf ui : Int) (hIn : tIn.prices.minPrice ≠ 0) (hd : delta > 0) :
    getMarketTokenAmountByCollateral m mt tIn tOut amount delta sf ui =
      some (usdToMarketTokenAmount m mt
              (convertToUsd (applySwapImpactWithCap m tOut delta).impactDeltaAmount
                tOut.decimals tOut.prices.maxPrice) +
            usdToMarketTokenAmount m mt
              (convertToUsd
                (amount - sf * expandDecimals tIn.decimals / tIn.prices.minPrice
                  - ui * expandDecimals tIn.decimals / tIn.prices.minPrice)
                tIn.decimals tIn.prices.minPrice)) := by
  unfold getMarketTokenAmountByCollateral
  rw [convertToTokenAmount_eq_some _ _ hIn, convertToTokenAmount_eq_some _ _ hIn]
  simp only [Option.bind_eq_bind, Option.some_bind]
  rw [if_pos hd]
  rfl

theorem getMarketTokenAmountByCollateral_nonpos_eq (m : MarketInfo) (mt tIn tOut : TokenData)
    (amount delta sf ui : Int) (hIn : tIn.prices.minPrice ≠ 0) (hd : delta ≤ 0) :
    getMarketTokenAmountByCollateral m mt tIn tOut amount delta sf ui =
      some (usdToMarketTokenAmount m mt
              (convertToUsd
                (amount - sf * expandDecimals tIn.decimals / tIn.prices.minPrice
                  - ui * expandDecimals tIn.decimals / tIn.prices.minPrice
                  + (applySwapImpactWithCap m tIn delta).impactDeltaAmount)
                tIn.decimals tIn.prices.minPrice)) := by
  unfold getMarketTokenAmountByCollateral
  rw [convertToTokenAmount_eq_some _ _ hIn, convertToTokenAmount_eq_some _ _ hIn]
  simp only [Option.bind_eq_bind, Option.some_bind]
  rw [if_neg (by omega)]
  rfl

theorem getMarketTokenAmountByCollateral_isSome (m : MarketInfo) (mt tIn tOut : TokenData)
    (amount delta sf ui : Int) (hIn : tIn.prices.minPrice ≠ 0) :
    ∃ v, getMarketTokenAmountByCollateral m mt tIn tOut amount delta sf ui = some v := by
  rcases le_or_lt delta 0 with hd | hd
  · exact ⟨_, getMarketTokenAmountByCollateral_nonpos_eq m mt tIn tOut amount delta sf ui hIn hd⟩
  · exact ⟨_, getMarketTokenAmountByCollateral_pos_eq m mt tIn tOut amount delta sf ui hIn hd⟩

/-! ### Structural lemmas about the byCollaterals side contributions -/

theorem collateralSideContribution_of_nonpos {p : DepositParams} {tIn tOut : TokenData}
    {amount sideUsd total delta : Int} (h : ¬ sideUsd > 0) :
    collateralSideContribution p tIn tOut amount sideUsd total delta = some (0, 0, 0) := by
  unfold collateralSideContribution
  rw [if_neg h]
  rfl

theorem collateralSideContribution_spec {p : DepositParams} {tIn tOut : TokenData}
    {amount sideUsd total delta : Int} (h : sideUsd > 0) (htot : total ≠ 0)
    (hIn : tIn.prices.minPrice ≠ 0) :
    ∃ mint,
      getMarketTokenAmountByCollateral p.marketInfo p.marketToken tIn tOut amount
        (delta * sideUsd / total)
        (if p.forShift then 0 else getSwapFee p.marketInfo sideUsd (delta > 0))
        (applyFactor sideUsd p.uiFeeFactor) = some mint ∧
      collateralSideContribution p tIn tOut amount sideUsd total delta =
        some (if p.forShift then 0 else getSwapFee p.marketInfo sideUsd (delta > 0),
              applyFactor sideUsd p.uiFeeFactor, mint) := by
  obtain ⟨mint, hmint⟩ := getMarketTokenAmountByCollateral_isSome p.marketInfo p.marketToken
    tIn tOut amount (delta * sideUsd / total)
    (if p.forShift then 0 else getSwapFee p.marketInfo sideUsd (delta > 0))
    (applyFactor sideUsd p.uiFeeFactor) hIn
  refine ⟨mint, hmint, ?_⟩
  unfold collateralSideContribution
  rw [if_pos h, mulDiv_eq_some _ _ htot]
  simp only [Option.bind_eq_bind, Option.some_bind]
  rw [hmint]
  simp only [Option.bind_eq_bind, Option.some_bind]
  rfl

/-! ### Structural lemmas about the byMarketToken adjustment block -/

theorem adjust_eq_of_nonneg_delta (l s fee delta : Int) (hd : 0 ≤ delta) :
    adjustDepositUsdForFeesAndImpact l s fee delta =
      if l + s > 0 then some (l + fee * l / (l + s), s + fee * s / (l + s))
      else some (l, s) := by
  unfold adjustDepositUsdForFeesAndImpact
  by_cases ht : l + s > 0
  · rw [if_pos ht, if_pos ht, mulDiv_eq_some _ _ ht.ne', mulDiv_eq_some _ _ ht.ne']
    simp only [Option.bind_eq_bind, Option.some_bind]
    rw [if_neg (fun hc => absurd hc.1 (by omega))]
    rfl
  · rw [if_neg ht, if_neg ht]
    rfl

theorem adjust_eq_of_neg_delta (l s fee delta : Int) (hd : delta < 0) (ht : l + s > 0) :
    adjustDepositUsdForFeesAndImpact l s fee delta =
      (if (l + fee * l / (l + s)) + (s + fee * s / (l + s)) > 0 then
        some (l + fee * l / (l + s)
                + -delta * (l + fee * l / (l + s))
                  / ((l + fee * l / (l + s)) + (s + fee * s / (l + s))),
              s + fee * s / (l + s)
                + -delta * (s + fee * s / (l + s))
                  / ((l + fee * l / (l + s)) + (s + fee * s / (l + s))))
      else some (l + fee * l / (l + s), s + fee * s / (l + s))) := by
  unfold adjustDepositUsdForFeesAndImpact
  rw [if_pos ht, mulDiv_eq_some _ _ ht.ne', mulDiv_eq_some _ _ ht.ne']
  simp only [Option.bind_eq_bind, Option.some_bind]
  by_cases ht1 : (l + fee * l / (l + s)) + (s + fee * s / (l + s)) > 0
  · rw [if_pos ⟨hd, ht1⟩, if_pos ht1, mulDiv_eq_some _ _ ht1.ne', mulDiv_eq_some _ _ ht1.ne']
    simp only [Option.bind_eq_bind, Option.some_bind]
    rfl
  · rw [if_neg (fun hc => absurd hc.2 ht1), if_neg ht1]
    rfl

theorem adjust_isSome (l s fee delta : Int) :
    ∃ v, adjustDepositUsdForFeesAndImpact l s fee delta = some v := by
  rcases lt_or_le delta 0 with hd | hd
  · by_cases ht : l + s > 0
    · rw [adjust_eq_of_neg_delta l s fee delta hd ht]
      split <;> exact ⟨_, rfl⟩
    · unfold adjustDepositUsdForFeesAndImpact
      rw [if_neg ht]
      exact ⟨_, rfl⟩
  · rw [adjust_eq_of_nonneg_delta l s fee delta hd]
    split <;> exact ⟨_, rfl⟩

theorem adjust_nonneg {l s fee delta l' s' : Int} (hl : 0 ≤ l) (hs : 0 ≤ s) (hfee : 0 ≤ fee)
    (h : adjustDepositUsdForFeesAndImpact l s fee delta = some (l', s')) :
    0 ≤ l' ∧ 0 ≤ s' := by
  by_cases ht : l + s > 0
  · have hfl : 0 ≤ fee * l / (l + s) := Int.ediv_nonneg (mul_nonneg hfee hl) ht.le
    have hfs : 0 ≤ fee * s / (l + s) := Int.ediv_nonneg (mul_nonneg hfee hs) ht.le
    rcases lt_or_le delta 0 with hd | hd
    · rw [adjust_eq_of_neg_delta l s fee delta hd ht] at h
      by_cases ht1 : (l + fee * l / (l + s)) + (s + fee * s / (l + s)) > 0
      · rw [if_pos ht1] at h
        have hil : 0 ≤ -delta * (l + fee * l / (l + s))
            / ((l + fee * l / (l + s)) + (s + fee * s / (l + s))) :=
          Int.ediv_nonneg (mul_nonneg (by linarith) (by linarith)) ht1.le
        have his : 0 ≤ -delta * (s + fee * s / (l + s))
            / ((l + fee * l / (l + s)) + (s + fee * s / (l + s))) :=
          Int.ediv_nonneg (mul_nonneg (by linarith) (by linarith)) ht1.le
        injection h with h
        injection h with h1 h2
        constructor
        · rw [← h1]; linarith
        · rw [← h2]; linarith
      · rw [if_neg ht1] at h
        injection h with h
        injection h with h1 h2
        constructor
        · rw [← h1]; linarith
        · rw [← h2]; linarith
    · rw [adjust_eq_of_nonneg_delta l s fee delta hd, if_pos ht] at h
      injection h with h
      injection h with h1 h2
      constructor
      · rw [← h1]; linarith
      · rw [← h2]; linarith
  · unfold adjustDepositUsdForFeesAndImpact at h
    rw [if_neg ht] at h
    injection h with h
    injection h with h1 h2
    constructor
    · rw [← h1]; linarith
    · rw [← h2]; linarith

/-! ### Dispatch and split lemmas -/

theorem getDepositAmounts_byCollaterals {p : DepositParams}
    (hs : p.strategy = .byCollaterals) :
    getDepositAmounts p = depositByCollaterals p := by
  unfold getDepositAmounts
  rw [hs]

theorem getDepositAmounts_byMarketToken {p : DepositParams}
    (hs : p.strategy = .byMarketToken) :
    getDepositAmounts p = depositByMarketToken p := by
  unfold getDepositAmounts
  rw [hs]

theorem splitByPrevHoldings_eq {L S : Int} (m : Int) (h : L + S ≠ 0) :
    splitByPrevHoldings m L S = some (m * L / (L + S), m - m * L / (L + S)) := by
  unfold splitByPrevHoldings
  rw [mulDiv_eq_some _ _ h]
  simp only [Option.bind_eq_bind, Option.some_bind]
  rfl

theorem splitByPrevHoldings_spec {m L S l s : Int} (hT : 0 < L + S)
    (h : splitByPrevHoldings m L S = some (l, s)) :
    l + s = m ∧ s * L - l * S = m * L % (L + S) := by
  rw [splitByPrevHoldings_eq m hT.ne'] at h
  injection h with h
  injection h with h1 h2
  subst h1
  subst h2
  constructor
  · ring
  · linear_combination (-1 : Int) * Int.ediv_add_emod (m * L) (L + S)

theorem convertToTokenAmount_some_spec {u : Int} {d : Nat} {price la : Int}
    (h : convertToTokenAmount u d price = some la) :
    price ≠ 0 ∧ la = u * expandDecimals d / price := by
  unfold convertToTokenAmount at h
  by_cases h0 : price = 0
  · rw [if_pos h0] at h
    simp at h
  · rw [if_neg h0] at h
    injection h with h
    exact ⟨h0, h.symm⟩

theorem collateralSideContribution_some_spec {p : DepositParams} {tIn tOut : TokenData}
    {amount sideUsd total delta : Int} {c : Int × Int × Int}
    (hc : collateralSideContribution p tIn tOut amount sideUsd total delta = some c) :
    (¬ sideUsd > 0 ∧ c = (0, 0, 0)) ∨
    (sideUsd > 0 ∧ total ≠ 0 ∧
      c.1 = (if p.forShift then 0 else getSwapFee p.marketInfo sideUsd (delta > 0)) ∧
      c.2.1 = applyFactor sideUsd p.uiFeeFactor ∧
      getMarketTokenAmountByCollateral p.marketInfo p.marketToken tIn tOut amount
        (delta * sideUsd / total) c.1 c.2.1 = some c.2.2) := by
  by_cases h : sideUsd > 0
  · right
    unfold collateralSideContribution at hc
    rw [if_pos h] at hc
    by_cases htot : total = 0
    · exfalso
      unfold mulDiv at hc
      rw [if_pos htot] at hc
      simp at hc
    · rw [mulDiv_eq_some _ _ htot] at hc
      simp only [Option.bind_eq_bind, Option.some_bind] at hc
      obtain ⟨mint, hmint, hc⟩ := Option.bind_eq_some.mp hc
      have hc' : some (if p.forShift then 0
            else getSwapFee p.marketInfo sideUsd (delta > 0),
          applyFactor sideUsd p.uiFeeFactor, mint) = some c := hc
      injection hc' with hc'
      subst hc'
      exact ⟨h, htot, rfl, rfl, hmint⟩
  · left
    refine ⟨h, ?_⟩
    rw [collateralSideContribution_of_nonpos h] at hc
    injection hc with hc
    exact hc.symm

theorem collateralSideContribution_isSome (p : DepositParams) (tIn tOut : TokenData)
    (amount sideUsd total delta : Int) (hIn : tIn.prices.minPrice ≠ 0)
    (htot : sideUsd > 0 → total ≠ 0) :
    ∃ c, collateralSideContribution p tIn tOut amount sideUsd total delta = some c := by
  by_cases h : sideUsd > 0
  · obtain ⟨mint, _, h2⟩ := collateralSideContribution_spec h (htot h) hIn
    exact ⟨_, h2⟩
  · exact ⟨_, collateralSideContribution_of_nonpos h⟩

theorem depositByCollateralsMain_eq {p : DepositParams} {cL cS : Int × Int × Int}
    (hL : collateralSideContribution p p.longToken p.shortToken p.longTokenAmount
      (collateralLongTokenUsd p) (collateralLongTokenUsd p + collateralShortTokenUsd p)
      (collateralSwapImpactDeltaUsd p) = some cL)
    (hS : collateralSideContribution p p.shortToken p.longToken p.shortTokenAmount
      (collateralShortTokenUsd p) (collateralLongTokenUsd p + collateralShortTokenUsd p)
      (collateralSwapImpactDeltaUsd p) = some cS) :
    depositByCollateralsMain p = some
      { longTokenAmount := p.longTokenAmount, longTokenUsd := collateralLongTokenUsd p
        shortTokenAmount := p.shortTokenAmount, shortTokenUsd := collateralShortTokenUsd p
        marketTokenAmount :=
          (match p.vaultInfo with
           | some vaultInfo => wrapToVaultAmount p vaultInfo (cL.2.2 + cS.2.2)
               (convertToUsd (cL.2.2 + cS.2.2) p.marketToken.decimals
                 p.marketToken.prices.minPrice)
           | none => cL.2.2 + cS.2.2)
        marketTokenUsd :=
          convertToUsd (cL.2.2 + cS.2.2) p.marketToken.decimals p.marketToken.prices.minPrice
        swapFeeUsd := cL.1 + cS.1, uiFeeUsd := cL.2.1 + cS.2.1
        swapPriceImpactDeltaUsd := collateralSwapImpactDeltaUsd p } := by
  obtain ⟨sfL, uiL, mintL⟩ := cL
  obtain ⟨sfS, uiS, mintS⟩ := cS
  unfold depositByCollateralsMain
  rw [hL]
  simp only [Option.bind_eq_bind, Option.some_bind]
  rw [hS]
  simp only [Option.bind_eq_bind, Option.some_bind]
  rfl

theorem depositByCollateralsMain_spec {p : DepositParams} {r : DepositAmounts}
    (h : depositByCollateralsMain p = some r) :
    ∃ cL cS : Int × Int × Int,
      collateralSideContribution p p.longToken p.shortToken p.longTokenAmount
        (collateralLongTokenUsd p) (collateralLongTokenUsd p + collateralShortTokenUsd p)
        (collateralSwapImpactDeltaUsd p) = some cL ∧
      collateralSideContribution p p.shortToken p.longToken p.shortTokenAmount
        (collateralShortTokenUsd p) (collateralLongTokenUsd p + collateralShortTokenUsd p)
        (collateralSwapImpactDeltaUsd p) = some cS ∧
      r = { longTokenAmount := p.longTokenAmount, longTokenUsd := collateralLongTokenUsd p
            shortTokenAmount := p.shortTokenAmount, shortTokenUsd := collateralShortTokenUsd p
            marketTokenAmount :=
              (match p.vaultInfo with
               | some vaultInfo => wrapToVaultAmount p vaultInfo (cL.2.2 + cS.2.2)
                   (convertToUsd (cL.2.2 + cS.2.2) p.marketToken.decimals
                     p.marketToken.prices.minPrice)
               | none => cL.2.2 + cS.2.2)
            marketTokenUsd :=
              convertToUsd (cL.2.2 + cS.2.2) p.marketToken.decimals
                p.marketToken.prices.minPrice
            swapFeeUsd := cL.1 + cS.1, uiFeeUsd := cL.2.1 + cS.2.1
            swapPriceImpactDeltaUsd := collateralSwapImpactDeltaUsd p } := by
  unfold depositByCollateralsMain at h
  simp only [Option.bind_eq_bind] at h
  obtain ⟨cL, hL, h⟩ := Option.bind_eq_some.mp h
  obtain ⟨sfL, uiL, mintL⟩ := cL
  obtain ⟨cS, hS, h⟩ := Option.bind_eq_some.mp h
  obtain ⟨sfS, uiS, mintS⟩ := cS
  refine ⟨(sfL, uiL, mintL), (sfS, uiS, mintS), hL, hS, ?_⟩
  exact (Option.some_inj.mp h).symm

theorem depositByCollaterals_eq_main {p : DepositParams}
    (h0 : ¬(p.longTokenAmount = 0 ∧ p.shortTokenAmount = 0))
    (hno : ¬(p.isMarketTokenDeposit = true ∧ p.vaultInfo.isSome = true)) :
    depositByCollaterals p = depositByCollateralsMain p := by
  unfold depositByCollaterals
  rw [if_neg h0]
  rcases hv : p.vaultInfo with _ | vi
  · rfl
  · rcases hmtd : p.isMarketTokenDeposit with _ | _
    · rfl
    · exact absurd ⟨hmtd, by rw [hv]; rfl⟩ hno

theorem depositByMarketToken_main_eq {p : DepositParams}
    (hm : ¬ p.marketTokenAmount = 0)
    (hno : ¬(p.isMarketTokenDeposit = true ∧ p.vaultInfo.isSome = true))
    {l0 s0 l1 s1 : Int}
    (hsplit : byMarketTokenSplit p (byMarketTokenUsd p) = some (l0, s0))
    (hadj : adjustDepositUsdForFeesAndImpact l0 s0
      ((if p.forShift then 0
        else getSwapFee p.marketInfo (byMarketTokenUsd p)
          (getPriceImpactForSwap p.marketInfo p.longToken p.shortToken l0 s0 > 0)) +
       applyFactor (byMarketTokenUsd p) p.uiFeeFactor)
      (getPriceImpactForSwap p.marketInfo p.longToken p.shortToken l0 s0) = some (l1, s1))
    (hlp : getMidPrice p.longToken.prices ≠ 0) (hsp : getMidPrice p.shortToken.prices ≠ 0) :
    depositByMarketToken p = some
      { longTokenAmount :=
          l1 * expandDecimals p.longToken.decimals / getMidPrice p.longToken.prices
        longTokenUsd := l1
        shortTokenAmount :=
          s1 * expandDecimals p.shortToken.decimals / getMidPrice p.shortToken.prices
        shortTokenUsd := s1
        marketTokenAmount := p.marketTokenAmount
        marketTokenUsd := byMarketTokenUsd p
        swapFeeUsd := if p.forShift then 0
          else getSwapFee p.marketInfo (byMarketTokenUsd p)
            (getPriceImpactForSwap p.marketInfo p.longToken p.shortToken l0 s0 > 0)
        uiFeeUsd := applyFactor (byMarketTokenUsd p) p.uiFeeFactor
        swapPriceImpactDeltaUsd :=
          getPriceImpactForSwap p.marketInfo p.longToken p.shortToken l0 s0 } := by
  unfold depositByMarketToken
  rw [if_neg hm, if_neg hno, hsplit]
  simp only [Option.bind_eq_bind, Option.some_bind]
  rw [hadj]
  simp only [Option.bind_eq_bind, Option.some_bind]
  rw [convertToTokenAmount_eq_some _ _ hlp]
  simp only [Option.bind_eq_bind, Option.some_bind]
  rw [convertToTokenAmount_eq_some _ _ hsp]
  simp only [Option.bind_eq_bind, Option.some_bind]
  rfl

theorem depositByMarketToken_main_spec {p : DepositParams} {r : DepositAmounts}
    (hm : ¬ p.marketTokenAmount = 0)
    (hno : ¬(p.isMarketTokenDeposit = true ∧ p.vaultInfo.isSome = true))
    (h : depositByMarketToken p = some r) :
    ∃ l0 s0 l1 s1 : Int,
      byMarketTokenSplit p (byMarketTokenUsd p) = some (l0, s0) ∧
      adjustDepositUsdForFeesAndImpact l0 s0
        ((if p.forShift then 0
          else getSwapFee p.marketInfo (byMarketTokenUsd p)
            (getPriceImpactForSwap p.marketInfo p.longToken p.shortToken l0 s0 > 0)) +
         applyFactor (byMarketTokenUsd p) p.uiFeeFactor)
        (getPriceImpactForSwap p.marketInfo p.longToken p.shortToken l0 s0) = some (l1, s1) ∧
      getMidPrice p.longToken.prices ≠ 0 ∧ getMidPrice p.shortToken.prices ≠ 0 ∧
      r = { longTokenAmount :=
              l1 * expandDecimals p.longToken.decimals / getMidPrice p.longToken.prices
            longTokenUsd := l1
            shortTokenAmount :=
              s1 * expandDecimals p.shortToken.decimals / getMidPrice p.shortToken.prices
            shortTokenUsd := s1
            marketTokenAmount := p.marketTokenAmount
            marketTokenUsd := byMarketTokenUsd p
            swapFeeUsd := if p.forShift then 0
              else getSwapFee p.marketInfo (byMarketTokenUsd p)
                (getPriceImpactForSwap p.marketInfo p.longToken p.shortToken l0 s0 > 0)
            uiFeeUsd := applyFactor (byMarketTokenUsd p) p.uiFeeFactor
            swapPriceImpactDeltaUsd :=
              getPriceImpactForSwap p.marketInfo p.longToken p.shortToken l0 s0 } := by
  unfold depositByMarketToken at h
  rw [if_neg hm, if_neg hno] at h
  simp only [Option.bind_eq_bind] at h
  obtain ⟨x0, hsplit, h⟩ := Option.bind_eq_some.mp h
  obtain ⟨l0, s0⟩ := x0
  obtain ⟨x1, hadj, h⟩ := Option.bind_eq_some.mp h
  obtain ⟨l1, s1⟩ := x1
  obtain ⟨la, hla, h⟩ := Option.bind_eq_some.mp h
  obtain ⟨sa, hsa, h⟩ := Option.bind_eq_some.mp h
  obtain ⟨hlp, hla'⟩ := convertToTokenAmount_some_spec hla
  obtain ⟨hsp, hsa'⟩ := convertToTokenAmount_some_spec hsa
  refine ⟨l0, s0, l1, s1, hsplit, hadj, hlp, hsp, ?_⟩
  subst hla'
  subst hsa'
  exact (Option.some_inj.mp h).symm

/-!
## The claims
-/

/-- C9: getDepositAmounts short-circuits on zero input: in the byCollaterals
strategy, if both longTokenAmount and shortTokenAmount are zero it returns
the all-zero DepositAmounts record, for any market/token configuration; in
the byMarketToken strategy, if marketTokenAmount is zero it returns the
all-zero record. -/
theorem claim9_zero_input_short_circuit (p : DepositParams) :
    (p.strategy = .byCollaterals → p.longTokenAmount = 0 → p.shortTokenAmount = 0 →
      getDepositAmounts p = some zeroDepositAmounts) ∧
    (p.strategy = .byMarketToken → p.marketTokenAmount = 0 →
      getDepositAmounts p = some zeroDepositAmounts) := by
  constructor
  · intro hs h1 h2
    rw [getDepositAmounts_byCollaterals hs]
    unfold depositByCollaterals
    rw [if_pos ⟨h1, h2⟩]
  · intro hs h1
    rw [getDepositAmounts_byMarketToken hs]
    unfold depositByMarketToken
    rw [if_pos h1]

theorem claim9_zero_input_short_circuit_witness :
    getDepositAmounts inputZeroCollaterals = some zeroDepositAmounts ∧
    getDepositAmounts inputZeroMarketToken = some zeroDepositAmounts :=
  ⟨(claim9_zero_input_short_circuit inputZeroCollaterals).1 rfl rfl rfl,
   (claim9_zero_input_short_circuit inputZeroMarketToken).2 rfl rfl⟩

/-- C7: in the byMarketToken strategy, after fees are redistributed into
longTokenUsd and shortTokenUsd, the price-impact redistribution step adds a
proportional share of the impact magnitude to each side only when
swapPriceImpactDeltaUsd is negative; when swapPriceImpactDeltaUsd is
positive (or zero), longTokenUsd and shortTokenUsd are unchanged by this
step. -/
theorem claim7_impact_redistributed_only_when_negative
    (longTokenUsd shortTokenUsd totalFee swapPriceImpactDeltaUsd : Int) :
    (0 ≤ swapPriceImpactDeltaUsd →
      adjustDepositUsdForFeesAndImpact longTokenUsd shortTokenUsd totalFee
          swapPriceImpactDeltaUsd =
        if longTokenUsd + shortTokenUsd > 0 then
          some (longTokenUsd + totalFee * longTokenUsd / (longTokenUsd + shortTokenUsd),
                shortTokenUsd + totalFee * shortTokenUsd / (longTokenUsd + shortTokenUsd))
        else some (longTokenUsd, shortTokenUsd)) ∧
    (swapPriceImpactDeltaUsd < 0 → longTokenUsd + shortTokenUsd > 0 →
      adjustDepositUsdForFeesAndImpact longTokenUsd shortTokenUsd totalFee
          swapPriceImpactDeltaUsd =
        (if (longTokenUsd + totalFee * longTokenUsd / (longTokenUsd + shortTokenUsd))
            + (shortTokenUsd + totalFee * shortTokenUsd / (longTokenUsd + shortTokenUsd)) > 0 then
          some (longTokenUsd + totalFee * longTokenUsd / (longTokenUsd + shortTokenUsd)
                  + -swapPriceImpactDeltaUsd
                    * (longTokenUsd + totalFee * longTokenUsd / (longTokenUsd + shortTokenUsd))
                    / ((longTokenUsd + totalFee * longTokenUsd / (longTokenUsd + shortTokenUsd))
                      + (shortTokenUsd
                        + totalFee * shortTokenUsd / (longTokenUsd + shortTokenUsd))),
                shortTokenUsd + totalFee * shortTokenUsd / (longTokenUsd + shortTokenUsd)
                  + -swapPriceImpactDeltaUsd
                    * (shortTokenUsd + totalFee * shortTokenUsd / (longTokenUsd + shortTokenUsd))
                    / ((longTokenUsd + totalFee * longTokenUsd / (longTokenUsd + shortTokenUsd))
                      + (shortTokenUsd
                        + totalFee * shortTokenUsd / (longTokenUsd + shortTokenUsd))))
        else
          some (longTokenUsd + totalFee * longTokenUsd / (longTokenUsd + shortTokenUsd),
                shortTokenUsd + totalFee * shortTokenUsd / (longTokenUsd + shortTokenUsd)))) :=
  ⟨fun hd => adjust_eq_of_nonneg_delta longTokenUsd shortTokenUsd totalFee
      swapPriceImpactDeltaUsd hd,
   fun hd ht => adjust_eq_of_neg_delta longTokenUsd shortTokenUsd totalFee
      swapPriceImpactDeltaUsd hd ht⟩

theorem claim7_impact_redistributed_only_when_negative_witness :
    adjustDepositUsdForFeesAndImpact 2 0 3 0 = some (5, 0) ∧
    adjustDepositUsdForFeesAndImpact 1 1 1 (-1) = some (1, 1) :=
  ⟨((claim7_impact_redistributed_only_when_negative 2 0 3 0).1 (by norm_num)).trans
      (by decide),
   ((claim7_impact_redistributed_only_when_negative 1 1 1 (-1)).2 (by norm_num)
      (by norm_num)).trans (by decide)⟩

/-- C8 counterexample: with marketTokenUsd = 1 and previous holdings
L = S = 1, the split yields (0, 1), and 0 * 1 ≠ 1 * 1, so the exact ratio
equality longTokenUsd * S = shortTokenUsd * L fails on the code (floor
division loses it); the same values flow to the final record when fees and
impact are zero. -/
theorem claim8_counterexample :
    splitByPrevHoldings 1 1 1 = some (0, 1) ∧
    ((getDepositAmounts inputEqualHoldings).getD zeroDepositAmounts).longTokenUsd = 0 ∧
    ((getDepositAmounts inputEqualHoldings).getD zeroDepositAmounts).shortTokenUsd = 1 ∧
    ¬ ((0 : Int) * 1 = 1 * 1) := by decide

/-- C8 amended: for the byMarketToken proportional split with previous
holdings (L, S), L + S > 0, the split satisfies the L : S ratio up to
integer rounding: the split sums to marketTokenUsd and the ratio deviation
shortTokenUsd * L - longTokenUsd * S equals marketTokenUsd * L mod (L + S),
hence lies in [0, L + S). -/
theorem claim8_split_ratio_up_to_rounding
    (marketTokenUsd prevLongTokenUsd prevShortTokenUsd l s : Int)
    (hT : 0 < prevLongTokenUsd + prevShortTokenUsd)
    (h : splitByPrevHoldings marketTokenUsd prevLongTokenUsd prevShortTokenUsd = some (l, s)) :
    l + s = marketTokenUsd ∧
    s * prevLongTokenUsd - l * prevShortTokenUsd =
      marketTokenUsd * prevLongTokenUsd % (prevLongTokenUsd + prevShortTokenUsd) ∧
    0 ≤ s * prevLongTokenUsd - l * prevShortTokenUsd ∧
    s * prevLongTokenUsd - l * prevShortTokenUsd <
      prevLongTokenUsd + prevShortTokenUsd := by
  obtain ⟨h1, h2⟩ := splitByPrevHoldings_spec hT h
  refine ⟨h1, h2, ?_, ?_⟩
  · rw [h2]
    exact Int.emod_nonneg _ hT.ne'
  · rw [h2]
    exact Int.emod_lt_of_pos _ hT

theorem claim8_split_ratio_up_to_rounding_witness :
    (0 : Int) + 1 = 1 ∧
    (1 : Int) * 1 - 0 * 1 = 1 * 1 % (1 + 1) ∧
    0 ≤ (1 : Int) * 1 - 0 * 1 ∧
    (1 : Int) * 1 - 0 * 1 < 1 + 1 :=
  claim8_split_ratio_up_to_rounding 1 1 1 0 1 (by norm_num) (by decide)

/-- C1 counterexample: a byMarketToken forShift call with empty pools and
otherwise valid inputs (positive prices, non-negative amounts) divides by
the zero totalPoolUsd: the pool-proportional split is not guarded, so the
computation fails instead of skipping the step. -/
theorem claim1_counterexample :
    getDepositAmounts inputShiftEmptyPools = none ∧
    0 < inputShiftEmptyPools.longToken.prices.minPrice ∧
    0 < inputShiftEmptyPools.longToken.prices.maxPrice ∧
    0 < inputShiftEmptyPools.shortToken.prices.minPrice ∧
    0 < inputShiftEmptyPools.shortToken.prices.maxPrice ∧
    0 < inputShiftEmptyPools.marketToken.prices.minPrice ∧
    0 < inputShiftEmptyPools.marketInfo.marketTokenMintPrice ∧
    0 ≤ inputShiftEmptyPools.marketInfo.longPoolAmount ∧
    0 ≤ inputShiftEmptyPools.marketInfo.shortPoolAmount ∧
    0 ≤ inputShiftEmptyPools.marketTokenAmount ∧
    0 ≤ inputShiftEmptyPools.uiFeeFactor := by decide

/-- C5: for every byCollaterals call with isMarketTokenDeposit true and
vaultInfo present, getDepositAmounts skips all fee and price-impact logic
and returns marketTokenAmount equal to the long-token (GM) amount converted
to USD at the GM mid-price and then to vault-token units at the vault
index-token minimum price, with swapFeeUsd, uiFeeUsd and
swapPriceImpactDeltaUsd all zero. -/
theorem claim5_vault_shortcut (p : DepositParams) (v : GlvMarketInfo)
    (hs : p.strategy = .byCollaterals) (hmtd : p.isMarketTokenDeposit = true)
    (hv : p.vaultInfo = some v) :
    getDepositAmounts p = some
      { longTokenAmount := p.longTokenAmount
        longTokenUsd := convertToUsd p.longTokenAmount p.longToken.decimals
          (getMidPrice p.longToken.prices)
        shortTokenAmount := 0, shortTokenUsd := 0
        marketTokenAmount := (convertToTokenAmount
          (convertToUsd p.longTokenAmount p.longToken.decimals (getMidPrice p.longToken.prices))
          v.indexToken.decimals v.indexToken.prices.minPrice).getD 0
        marketTokenUsd := convertToUsd
          ((convertToTokenAmount
            (convertToUsd p.longTokenAmount p.longToken.decimals (getMidPrice p.longToken.prices))
            v.indexToken.decimals v.indexToken.prices.minPrice).getD 0)
          v.indexToken.decimals v.indexToken.prices.minPrice
        swapFeeUsd := 0, uiFeeUsd := 0, swapPriceImpactDeltaUsd := 0 } := by
  rw [getDepositAmounts_byCollaterals hs]
  unfold depositByCollaterals
  by_cases h0 : p.longTokenAmount = 0 ∧ p.shortTokenAmount = 0
  · rw [if_pos h0]
    obtain ⟨h1, _⟩ := h0
    rw [h1, convertToUsd_zero, convertToTokenAmount_zero_getD, convertToUsd_zero]
    rfl
  · rw [if_neg h0, hv, hmtd]
    rfl

theorem claim5_vault_shortcut_witness :
    getDepositAmounts inputGmToGlv = some
      { longTokenAmount := 100 * 10 ^ 18, longTokenUsd := 100 * 10 ^ 30
        shortTokenAmount := 0, shortTokenUsd := 0
        marketTokenAmount := 50 * 10 ^ 8, marketTokenUsd := 100 * 10 ^ 30
        swapFeeUsd := 0, uiFeeUsd := 0, swapPriceImpactDeltaUsd := 0 } :=
  (claim5_vault_shortcut inputGmToGlv
    { indexToken := mkToken 8 (2 * 10 ^ 30) (2 * 10 ^ 30) } rfl rfl rfl).trans (by decide)

/-- C10 counterexample: a byMarketToken call with both sides excluded,
positive fee factors (1) and positive marketTokenUsd (1) reports zero
swapFeeUsd and uiFeeUsd: the floored fee `1 * 1 / 10^30` is zero, refuting
"positive whenever the respective fee factors and marketTokenUsd are
positive". -/
theorem claim10_counterexample :
    (getDepositAmounts inputExcludedSides).getD zeroDepositAmounts =
      { zeroDepositAmounts with marketTokenAmount := 1, marketTokenUsd := 1 } ∧
    0 < inputExcludedSides.uiFeeFactor ∧
    0 < inputExcludedSides.marketInfo.swapFeeFactorForNegativeImpact ∧
    0 < ((getDepositAmounts inputExcludedSides).getD zeroDepositAmounts).marketTokenUsd ∧
    ((getDepositAmounts inputExcludedSides).getD zeroDepositAmounts).uiFeeUsd = 0 ∧
    ((getDepositAmounts inputExcludedSides).getD zeroDepositAmounts).swapFeeUsd = 0 := by
  decide

/-- C10 amended: for every byMarketToken call with marketTokenAmount ≠ 0,
forShift false, vaultInfo absent, and includeLongToken and
includeShortToken both false, getDepositAmounts returns longTokenUsd,
shortTokenUsd, longTokenAmount and shortTokenAmount all zero while
swapFeeUsd and uiFeeUsd are still computed from the full marketTokenUsd;
each fee is positive whenever its fee factor times marketTokenUsd reaches
the fee precision (not merely whenever both are positive, floor division
can round a small product to zero). -/
theorem claim10_excluded_sides_fees_reported (p : DepositParams)
    (hs : p.strategy = .byMarketToken) (hm : ¬ p.marketTokenAmount = 0)
    (hshift : p.forShift = false) (hv : p.vaultInfo = none)
    (hil : p.includeLongToken = false) (his : p.includeShortToken = false)
    (hlp : getMidPrice p.longToken.prices ≠ 0) (hsp : getMidPrice p.shortToken.prices ≠ 0) :
    getDepositAmounts p = some
      { longTokenAmount := 0, longTokenUsd := 0, shortTokenAmount := 0, shortTokenUsd := 0
        marketTokenAmount := p.marketTokenAmount
        marketTokenUsd := marketTokenAmountToUsd p.marketInfo p.marketToken p.marketTokenAmount
        swapFeeUsd := getSwapFee p.marketInfo
          (marketTokenAmountToUsd p.marketInfo p.marketToken p.marketTokenAmount)
          (getPriceImpactForSwap p.marketInfo p.longToken p.shortToken 0 0 > 0)
        uiFeeUsd := applyFactor
          (marketTokenAmountToUsd p.marketInfo p.marketToken p.marketTokenAmount) p.uiFeeFactor
        swapPriceImpactDeltaUsd :=
          getPriceImpactForSwap p.marketInfo p.longToken p.shortToken 0 0 } ∧
    (PRECISION ≤ marketTokenAmountToUsd p.marketInfo p.marketToken p.marketTokenAmount
        * p.uiFeeFactor →
      0 < applyFactor (marketTokenAmountToUsd p.marketInfo p.marketToken p.marketTokenAmount)
        p.uiFeeFactor) ∧
    (PRECISION ≤ marketTokenAmountToUsd p.marketInfo p.marketToken p.marketTokenAmount *
        (if getPriceImpactForSwap p.marketInfo p.longToken p.shortToken 0 0 > 0 then
          p.marketInfo.swapFeeFactorForPositiveImpact
        else p.marketInfo.swapFeeFactorForNegativeImpact) →
      0 < getSwapFee p.marketInfo
        (marketTokenAmountToUsd p.marketInfo p.marketToken p.marketTokenAmount)
        (getPriceImpactForSwap p.marketInfo p.longToken p.shortToken 0 0 > 0)) := by
  have hmusd : byMarketTokenUsd p =
      marketTokenAmountToUsd p.marketInfo p.marketToken p.marketTokenAmount := by
    unfold byMarketTokenUsd
    rw [hv]
  refine ⟨?_, fun h => applyFactor_pos h, fun h => ?_⟩
  · rw [getDepositAmounts_byMarketToken hs]
    unfold depositByMarketToken
    rw [if_neg hm]
    have hcond : ¬(p.isMarketTokenDeposit = true ∧ p.vaultInfo.isSome = true) := by
      rw [hv]
      simp
    rw [if_neg hcond]
    have hsplit : byMarketTokenSplit p (byMarketTokenUsd p) = some (0, 0) := by
      unfold byMarketTokenSplit
      rw [hshift, hil, his]
      simp
    rw [hsplit]
    simp only [Option.bind_eq_bind, Option.some_bind]
    have hadj : ∀ F D : Int, adjustDepositUsdForFeesAndImpact 0 0 F D = some (0, 0) := by
      intro F D
      unfold adjustDepositUsdForFeesAndImpact
      rw [if_neg (by norm_num)]
      rfl
    rw [hadj]
    simp only [Option.bind_eq_bind, Option.some_bind]
    rw [convertToTokenAmount_eq_some _ _ hlp, convertToTokenAmount_eq_some _ _ hsp]
    simp only [Option.bind_eq_bind, Option.some_bind, zero_mul, Int.zero_ediv]
    rw [hmusd, hshift]
    rfl
  · unfold getSwapFee
    split at h
    case isTrue hd =>
      rw [if_pos (decide_eq_true hd)]
      exact applyFactor_pos h
    case isFalse hd =>
      rw [if_neg (by simpa using hd)]
      exact applyFactor_pos h

theorem claim10_excluded_sides_fees_reported_witness :
    getDepositAmounts inputExcludedSides = some
      { longTokenAmount := 0, longTokenUsd := 0, shortTokenAmount := 0, shortTokenUsd := 0
        marketTokenAmount := 1, marketTokenUsd := 1, swapFeeUsd := 0, uiFeeUsd := 0
        swapPriceImpactDeltaUsd := 0 } ∧
    0 < applyFactor
      (marketTokenAmountToUsd ({ inputExcludedSides with uiFeeFactor := 10 ^ 30 }).marketInfo
        ({ inputExcludedSides with uiFeeFactor := 10 ^ 30 }).marketToken
        ({ inputExcludedSides with uiFeeFactor := 10 ^ 30 }).marketTokenAmount)
      ({ inputExcludedSides with uiFeeFactor := 10 ^ 30 }).uiFeeFactor :=
  ⟨(claim10_excluded_sides_fees_reported inputExcludedSides rfl (by decide) rfl rfl rfl rfl
      (by decide) (by decide)).1.trans (by decide),
   (claim10_excluded_sides_fees_reported { inputExcludedSides with uiFeeFactor := 10 ^ 30 }
      rfl (by decide) rfl rfl rfl rfl (by decide) (by decide)).2.1 (by decide)⟩

/-- C3 counterexample: a byCollaterals deposit into a vault (not the
market-token-deposit shortcut): the wrap overwrites marketTokenAmount with
the GLV amount (4) but leaves marketTokenUsd at the GM-denominated value
(20), so marketTokenUsd no longer equals convertToUsd(marketTokenAmount,
marketToken.decimals, marketToken minPrice). -/
theorem claim3_counterexample :
    ((getDepositAmounts inputVaultWrap).getD zeroDepositAmounts).marketTokenUsd ≠
      convertToUsd ((getDepositAmounts inputVaultWrap).getD zeroDepositAmounts).marketTokenAmount
        inputVaultWrap.marketToken.decimals inputVaultWrap.marketToken.prices.minPrice ∧
    inputVaultWrap.strategy = .byCollaterals ∧
    inputVaultWrap.isMarketTokenDeposit = false ∧
    inputVaultWrap.vaultInfo.isSome = true := by decide

/-- C3 amended: marketTokenUsd equals convertToUsd(marketTokenAmount,
decimals, price) for the path's price leg in byCollaterals without a vault
(marketToken minPrice) and in byMarketToken (the market pricing function,
or the vault index minPrice when vault-wrapped); in byCollaterals with a
vault the wrapping step overwrites marketTokenAmount without recomputing
marketTokenUsd, so the invariant does not survive the wrap. -/
theorem claim3_market_token_usd_recomputable (p : DepositParams) (r : DepositAmounts)
    (h : getDepositAmounts p = some r) :
    (p.strategy = .byCollaterals → p.vaultInfo = none →
      r.marketTokenUsd =
        convertToUsd r.marketTokenAmount p.marketToken.decimals
          p.marketToken.prices.minPrice) ∧
    (p.strategy = .byMarketToken → p.vaultInfo = none →
      r.marketTokenUsd = marketTokenAmountToUsd p.marketInfo p.marketToken
        r.marketTokenAmount) ∧
    (∀ v, p.strategy = .byMarketToken → p.vaultInfo = some v →
      r.marketTokenUsd =
        convertToUsd r.marketTokenAmount v.indexToken.decimals
          v.indexToken.prices.minPrice) := by
  refine ⟨?_, ?_, ?_⟩
  · intro hs hv
    rw [getDepositAmounts_byCollaterals hs] at h
    by_cases h0 : p.longTokenAmount = 0 ∧ p.shortTokenAmount = 0
    · unfold depositByCollaterals at h
      rw [if_pos h0] at h
      have hr := Option.some_inj.mp h
      subst hr
      simp [zeroDepositAmounts, convertToUsd_zero]
    · have hno : ¬(p.isMarketTokenDeposit = true ∧ p.vaultInfo.isSome = true) := by
        rw [hv]
        simp
      rw [depositByCollaterals_eq_main h0 hno] at h
      obtain ⟨cL, cS, _, _, hr⟩ := depositByCollateralsMain_spec h
      subst hr
      rw [hv]
  · intro hs hv
    rw [getDepositAmounts_byMarketToken hs] at h
    by_cases hm : p.marketTokenAmount = 0
    · unfold depositByMarketToken at h
      rw [if_pos hm] at h
      have hr := Option.some_inj.mp h
      subst hr
      simp [zeroDepositAmounts, marketTokenAmountToUsd, convertToUsd_zero]
    · have hno : ¬(p.isMarketTokenDeposit = true ∧ p.vaultInfo.isSome = true) := by
        rw [hv]
        simp
      obtain ⟨l0, s0, l1, s1, _, _, _, _, hr⟩ := depositByMarketToken_main_spec hm hno h
      subst hr
      unfold byMarketTokenUsd
      rw [hv]
  · intro v hs hv
    rw [getDepositAmounts_byMarketToken hs] at h
    have hmusd : byMarketTokenUsd p =
        convertToUsd p.marketTokenAmount v.indexToken.decimals
          v.indexToken.prices.minPrice := by
      unfold byMarketTokenUsd
      rw [hv]
    by_cases hm : p.marketTokenAmount = 0
    · unfold depositByMarketToken at h
      rw [if_pos hm] at h
      have hr := Option.some_inj.mp h
      subst hr
      simp [zeroDepositAmounts, convertToUsd_zero]
    · by_cases hmtd : p.isMarketTokenDeposit = true
      · unfold depositByMarketToken at h
        rw [if_neg hm, if_pos ⟨hmtd, by rw [hv]; rfl⟩] at h
        obtain ⟨la, _, hr⟩ := Option.map_eq_some'.mp h
        subst hr
        exact hmusd
      · have hno : ¬(p.isMarketTokenDeposit = true ∧ p.vaultInfo.isSome = true) := by
          intro hc
          exact hmtd hc.1
        obtain ⟨l0, s0, l1, s1, _, _, _, _, hr⟩ := depositByMarketToken_main_spec hm hno h
        subst hr
        exact hmusd

theorem claim3_market_token_usd_recomputable_witness :
    ((1 : Int) = marketTokenAmountToUsd inputEqualHoldings.marketInfo
      inputEqualHoldings.marketToken 1) :=
  (claim3_market_token_usd_recomputable inputEqualHoldings
    { longTokenAmount := 0, longTokenUsd := 0, shortTokenAmount := 1, shortTokenUsd := 1
      marketTokenAmount := 1, marketTokenUsd := 1, swapFeeUsd := 0, uiFeeUsd := 0
      swapPriceImpactDeltaUsd := 0 } (by decide)).2.1 rfl rfl

/-- C6: in the per-side minting helper getMarketTokenAmountByCollateral:
when the price-impact share is positive, the capped bonus impact amount is
taken in tokenOut, valued at tokenOut's maximum price and minted in
addition to the mint for the post-fee tokenIn amount valued at tokenIn's
minimum price, so a positive impact share never reduces the input-side
mint; when the impact share is negative or zero, the capped (negative)
impact amount is added to the post-fee input amount before valuing and
minting, and no separate tokenOut-side mint occurs. -/
theorem claim6_per_side_minting (m : MarketInfo) (mt tIn tOut : TokenData)
    (amount delta sf ui : Int) (hIn : tIn.prices.minPrice ≠ 0) :
    (delta > 0 →
      getMarketTokenAmountByCollateral m mt tIn tOut amount delta sf ui =
        some (usdToMarketTokenAmount m mt
                (convertToUsd (applySwapImpactWithCap m tOut delta).impactDeltaAmount
                  tOut.decimals tOut.prices.maxPrice) +
              usdToMarketTokenAmount m mt
                (convertToUsd
                  (amount - sf * expandDecimals tIn.decimals / tIn.prices.minPrice
                    - ui * expandDecimals tIn.decimals / tIn.prices.minPrice)
                  tIn.decimals tIn.prices.minPrice))) ∧
    (delta > 0 → 0 ≤ tOut.prices.maxPrice → 0 ≤ m.swapImpactPoolAmount tOut →
      0 ≤ m.marketTokenMintPrice →
      usdToMarketTokenAmount m mt
        (convertToUsd
          (amount - sf * expandDecimals tIn.decimals / tIn.prices.minPrice
            - ui * expandDecimals tIn.decimals / tIn.prices.minPrice)
          tIn.decimals tIn.prices.minPrice) ≤
      (getMarketTokenAmountByCollateral m mt tIn tOut amount delta sf ui).getD 0) ∧
    (delta ≤ 0 →
      getMarketTokenAmountByCollateral m mt tIn tOut amount delta sf ui =
        some (usdToMarketTokenAmount m mt
                (convertToUsd
                  (amount - sf * expandDecimals tIn.decimals / tIn.prices.minPrice
                    - ui * expandDecimals tIn.decimals / tIn.prices.minPrice
                    + (applySwapImpactWithCap m tIn delta).impactDeltaAmount)
                  tIn.decimals tIn.prices.minPrice))) := by
  refine ⟨fun hd => getMarketTokenAmountByCollateral_pos_eq m mt tIn tOut amount delta sf ui
      hIn hd,
    fun hd hmax hbudget hmint => ?_,
    fun hd => getMarketTokenAmountByCollateral_nonpos_eq m mt tIn tOut amount delta sf ui
      hIn hd⟩
  rw [getMarketTokenAmountByCollateral_pos_eq m mt tIn tOut amount delta sf ui hIn hd]
  simp only [Option.getD_some]
  have h1 : 0 ≤ (applySwapImpactWithCap m tOut delta).impactDeltaAmount :=
    applySwapImpactWithCap_nonneg_of_pos hd hmax hbudget
  have h2 : 0 ≤ convertToUsd (applySwapImpactWithCap m tOut delta).impactDeltaAmount
      tOut.decimals tOut.prices.maxPrice :=
    convertToUsd_nonneg h1 hmax
  have h3 : 0 ≤ usdToMarketTokenAmount m mt
      (convertToUsd (applySwapImpactWithCap m tOut delta).impactDeltaAmount
        tOut.decimals tOut.prices.maxPrice) :=
    usdToMarketTokenAmount_nonneg h2 hmint
  linarith

theorem claim6_per_side_minting_witness :
    getMarketTokenAmountByCollateral exCapMarket exMarketToken exTokenIn exTokenOut
      10 4 2 2 = some 20 ∧
    getMarketTokenAmountByCollateral exCapMarket exMarketToken exTokenIn exTokenOut
      10 (-4) 2 2 = some 12 ∧
    usdToMarketTokenAmount exCapMarket exMarketToken
      (convertToUsd
        (10 - 2 * expandDecimals exTokenIn.decimals / exTokenIn.prices.minPrice
          - 2 * expandDecimals exTokenIn.decimals / exTokenIn.prices.minPrice)
        exTokenIn.decimals exTokenIn.prices.minPrice) ≤
    (getMarketTokenAmountByCollateral exCapMarket exMarketToken exTokenIn exTokenOut
      10 4 2 2).getD 0 :=
  ⟨((claim6_per_side_minting exCapMarket exMarketToken exTokenIn exTokenOut 10 4 2 2
      (by decide)).1 (by decide)).trans (by decide),
   ((claim6_per_side_minting exCapMarket exMarketToken exTokenIn exTokenOut 10 (-4) 2 2
      (by decide)).2.2 (by decide)).trans (by decide),
   (claim6_per_side_minting exCapMarket exMarketToken exTokenIn exTokenOut 10 4 2 2
      (by decide)).2.1 (by decide) (by decide) (by decide) (by decide)⟩

theorem byMarketTokenSplit_isSome (p : DepositParams) (marketTokenUsd : Int)
    (hshift : p.forShift = true →
      convertToUsd p.marketInfo.longPoolAmount p.longToken.decimals
          p.longToken.prices.maxPrice +
        convertToUsd p.marketInfo.shortPoolAmount p.shortToken.decimals
          p.shortToken.prices.maxPrice ≠ 0) :
    ∃ x, byMarketTokenSplit p marketTokenUsd = some x := by
  unfold byMarketTokenSplit
  dsimp only
  split_ifs with hf h1 h2 h3
  · rw [mulDiv_eq_some _ _ (hshift hf)]
    simp only [Option.bind_eq_bind, Option.some_bind]
    rw [mulDiv_eq_some _ _ (hshift hf)]
    simp only [Option.bind_eq_bind, Option.some_bind]
    exact ⟨_, rfl⟩
  · exact ⟨_, splitByPrevHoldings_eq _ h1.2.2.ne'⟩
  · exact ⟨_, rfl⟩
  · exact ⟨_, rfl⟩
  · exact ⟨_, rfl⟩

/-- C1 amended: the totalDepositUsd proportional splits are guarded in both
strategies, and with non-negative amounts and positive prices
getDepositAmounts always succeeds provided, additionally, that a forShift
call has a nonzero totalPoolUsd; the forShift pool split itself is not
guarded, so that extra hypothesis cannot be dropped (see the
counterexample, where totalPoolUsd = 0 makes the call fail). -/
theorem claim1_guarded_divisions (p : DepositParams)
    (hla : 0 ≤ p.longTokenAmount) (hsa : 0 ≤ p.shortTokenAmount)
    (hlmin : 0 < p.longToken.prices.minPrice) (hlmax : 0 < p.longToken.prices.maxPrice)
    (hsmin : 0 < p.shortToken.prices.minPrice) (hsmax : 0 < p.shortToken.prices.maxPrice)
    (hmtmin : 0 < p.marketToken.prices.minPrice)
    (hshift : p.forShift = true →
      convertToUsd p.marketInfo.longPoolAmount p.longToken.decimals
          p.longToken.prices.maxPrice +
        convertToUsd p.marketInfo.shortPoolAmount p.shortToken.decimals
          p.shortToken.prices.maxPrice ≠ 0) :
    (getDepositAmounts p).isSome = true := by
  have hlUsd : 0 ≤ collateralLongTokenUsd p :=
    convertToUsd_nonneg hla (getMidPrice_nonneg hlmin.le hlmax.le)
  have hsUsd : 0 ≤ collateralShortTokenUsd p :=
    convertToUsd_nonneg hsa (getMidPrice_nonneg hsmin.le hsmax.le)
  rcases hs : p.strategy with _ | _
  · rw [getDepositAmounts_byCollaterals hs]
    by_cases h0 : p.longTokenAmount = 0 ∧ p.shortTokenAmount = 0
    · unfold depositByCollaterals
      rw [if_pos h0]
      rfl
    · by_cases hmv : p.isMarketTokenDeposit = true ∧ p.vaultInfo.isSome = true
      · obtain ⟨hmtd, hvs⟩ := hmv
        obtain ⟨v, hv⟩ := Option.isSome_iff_exists.mp hvs
        unfold depositByCollaterals
        rw [if_neg h0, hv, hmtd]
        rfl
      · rw [depositByCollaterals_eq_main h0 hmv]
        obtain ⟨cL, hcL⟩ := collateralSideContribution_isSome p p.longToken p.shortToken
          p.longTokenAmount (collateralLongTokenUsd p)
          (collateralLongTokenUsd p + collateralShortTokenUsd p)
          (collateralSwapImpactDeltaUsd p) hlmin.ne' (fun h => by linarith)
        obtain ⟨cS, hcS⟩ := collateralSideContribution_isSome p p.shortToken p.longToken
          p.shortTokenAmount (collateralShortTokenUsd p)
          (collateralLongTokenUsd p + collateralShortTokenUsd p)
          (collateralSwapImpactDeltaUsd p) hsmin.ne' (fun h => by linarith)
        rw [depositByCollateralsMain_eq hcL hcS]
        rfl
  · rw [getDepositAmounts_byMarketToken hs]
    by_cases hm : p.marketTokenAmount = 0
    · unfold depositByMarketToken
      rw [if_pos hm]
      rfl
    · by_cases hmv : p.isMarketTokenDeposit = true ∧ p.vaultInfo.isSome = true
      · unfold depositByMarketToken
        rw [if_neg hm, if_pos hmv, convertToTokenAmount_eq_some _ _ hmtmin.ne']
        rfl
      · obtain ⟨x0, hsplit⟩ := byMarketTokenSplit_isSome p (byMarketTokenUsd p) hshift
        obtain ⟨l0, s0⟩ := x0
        obtain ⟨x1, hadj⟩ := adjust_isSome l0 s0
          ((if p.forShift then 0
            else getSwapFee p.marketInfo (byMarketTokenUsd p)
              (getPriceImpactForSwap p.marketInfo p.longToken p.shortToken l0 s0 > 0)) +
           applyFactor (byMarketTokenUsd p) p.uiFeeFactor)
          (getPriceImpactForSwap p.marketInfo p.longToken p.shortToken l0 s0)
        obtain ⟨l1, s1⟩ := x1
        rw [depositByMarketToken_main_eq hm hmv hsplit hadj
          (getMidPrice_pos hlmin hlmax).ne' (getMidPrice_pos hsmin hsmax).ne']
        rfl

theorem claim1_guarded_divisions_witness :
    (getDepositAmounts inputEqualHoldings).isSome = true :=
  claim1_guarded_divisions inputEqualHoldings (by decide) (by decide) (by decide) (by decide)
    (by decide) (by decide) (by decide) (by decide)

/-! ### Sign lemmas for the byMarketToken split and the vault wrap -/

theorem ediv_nonpos_of_nonpos_of_nonneg {a b : Int} (ha : a ≤ 0) (hb : 0 ≤ b) : a / b ≤ 0 := by
  rcases eq_or_lt_of_le hb with h | h
  · rw [← h]
    simp
  · calc a / b ≤ 0 / b := Int.ediv_le_ediv h ha
      _ = 0 := Int.zero_ediv b

theorem splitByPrevHoldings_nonneg {m L S l s : Int} (hm : 0 ≤ m) (hL : 0 ≤ L) (hS : 0 ≤ S)
    (h : splitByPrevHoldings m L S = some (l, s)) : 0 ≤ l ∧ 0 ≤ s := by
  by_cases hT : L + S = 0
  · exfalso
    unfold splitByPrevHoldings mulDiv at h
    rw [if_pos hT] at h
    simp at h
  · have hTpos : 0 < L + S := lt_of_le_of_ne (by linarith) (Ne.symm hT)
    rw [splitByPrevHoldings_eq m hT] at h
    injection h with h
    injection h with h1 h2
    have hl : 0 ≤ m * L / (L + S) := Int.ediv_nonneg (mul_nonneg hm hL) hTpos.le
    have hle : m * L / (L + S) ≤ m := by
      calc m * L / (L + S) ≤ m * (L + S) / (L + S) :=
            Int.ediv_le_ediv hTpos (mul_le_mul_of_nonneg_left (by linarith) hm)
        _ = m := Int.mul_ediv_cancel m hT
    constructor
    · rw [← h1]
      exact hl
    · rw [← h2]
      linarith

theorem byMarketTokenSplit_nonneg {p : DepositParams} {musd l0 s0 : Int}
    (hm : 0 ≤ musd)
    (hA : 0 ≤ convertToUsd p.marketInfo.longPoolAmount p.longToken.decimals
      p.longToken.prices.maxPrice)
    (hB : 0 ≤ convertToUsd p.marketInfo.shortPoolAmount p.shortToken.decimals
      p.shortToken.prices.maxPrice)
    (hPL : 0 ≤ convertToUsd p.longTokenAmount p.longToken.decimals
      (getMidPrice p.longToken.prices))
    (hPS : 0 ≤ convertToUsd p.shortTokenAmount p.shortToken.decimals
      (getMidPrice p.shortToken.prices))
    (h : byMarketTokenSplit p musd = some (l0, s0)) :
    0 ≤ l0 ∧ 0 ≤ s0 := by
  unfold byMarketTokenSplit at h
  revert h
  dsimp only
  split_ifs with hf h1 h2 h3 <;> intro h
  · by_cases ht : convertToUsd p.marketInfo.longPoolAmount p.longToken.decimals
        p.longToken.prices.maxPrice +
      convertToUsd p.marketInfo.shortPoolAmount p.shortToken.decimals
        p.shortToken.prices.maxPrice = 0
    · exfalso
      unfold mulDiv at h
      rw [if_pos ht] at h
      simp at h
    · have htpos : 0 < convertToUsd p.marketInfo.longPoolAmount p.longToken.decimals
            p.longToken.prices.maxPrice +
          convertToUsd p.marketInfo.shortPoolAmount p.shortToken.decimals
            p.shortToken.prices.maxPrice := lt_of_le_of_ne (by linarith) (Ne.symm ht)
      rw [mulDiv_eq_some _ _ ht] at h
      simp only [Option.bind_eq_bind, Option.some_bind] at h
      rw [mulDiv_eq_some _ _ ht] at h
      simp only [Option.bind_eq_bind, Option.some_bind] at h
      have h' := Option.some_inj.mp h
      injection h' with h1' h2'
      constructor
      · rw [← h1']
        exact Int.ediv_nonneg (mul_nonneg hm hA) htpos.le
      · rw [← h2']
        exact Int.ediv_nonneg (mul_nonneg hm hB) htpos.le
  · exact splitByPrevHoldings_nonneg hm hPL hPS h
  · have h' := Option.some_inj.mp h
    injection h' with h1' h2'
    constructor
    · rw [← h1']
      exact hm
    · rw [← h2']
  · have h' := Option.some_inj.mp h
    injection h' with h1' h2'
    constructor
    · rw [← h1']
    · rw [← h2']
      exact hm
  · have h' := Option.some_inj.mp h
    injection h' with h1' h2'
    constructor
    · rw [← h1']
    · rw [← h2']

theorem wrapToVaultAmount_cases {p : DepositParams} (v : GlvMarketInfo) (mta musd : Int)
    (hmtd : p.isMarketTokenDeposit = false) :
    wrapToVaultAmount p v mta musd = mta ∨
    (0 < wrapToVaultAmount p v mta musd ∧
      convertToTokenAmount musd v.indexToken.decimals v.indexToken.prices.maxPrice =
        some (wrapToVaultAmount p v mta musd)) := by
  have heq : wrapToVaultAmount p v mta musd =
      (match convertToTokenAmount musd v.indexToken.decimals v.indexToken.prices.maxPrice with
       | some glvAmount => if glvAmount > 0 then glvAmount else mta
       | none => mta) := by
    unfold wrapToVaultAmount
    rw [hmtd]
    rfl
  rw [heq]
  rcases hcv : convertToTokenAmount musd v.indexToken.decimals v.indexToken.prices.maxPrice
    with _ | glv
  · left
    rfl
  · by_cases hg : glv > 0
    · right
      dsimp only
      rw [if_pos hg]
      exact ⟨hg, rfl⟩
    · left
      dsimp only
      rw [if_neg hg]

/-- C2 counterexample: with a UI fee factor of 200% (a non-negative factor)
and no price impact, the per-side minting helper's adjusted amount goes
negative and the byCollaterals call returns a negative marketTokenAmount
and marketTokenUsd, refuting "all fields except swapPriceImpactDeltaUsd
are never negative". -/
theorem claim2_counterexample :
    ((getDepositAmounts inputOverFee).getD zeroDepositAmounts).marketTokenAmount < 0 ∧
    ((getDepositAmounts inputOverFee).getD zeroDepositAmounts).marketTokenUsd < 0 ∧
    0 ≤ inputOverFee.longTokenAmount ∧ 0 ≤ inputOverFee.shortTokenAmount ∧
    0 ≤ inputOverFee.uiFeeFactor ∧
    0 < inputOverFee.longToken.prices.minPrice ∧
    0 < inputOverFee.longToken.prices.maxPrice ∧
    0 < inputOverFee.shortToken.prices.minPrice ∧
    0 < inputOverFee.shortToken.prices.maxPrice ∧
    0 < inputOverFee.marketToken.prices.minPrice ∧
    0 < inputOverFee.marketInfo.marketTokenMintPrice := by decide

/-- C2 amended: for valid inputs (non-negative amounts, prices and factors),
longTokenAmount, longTokenUsd, shortTokenAmount, shortTokenUsd, swapFeeUsd
and uiFeeUsd are always non-negative; in the byMarketToken strategy
marketTokenAmount and marketTokenUsd are also non-negative; in the
byCollaterals strategy marketTokenAmount (and with it marketTokenUsd) can
go negative when fees plus the capped negative price impact exceed the
post-fee input in the per-side minting helper, but whenever
marketTokenAmount is non-negative so is marketTokenUsd. -/
theorem claim2_nonnegative_outputs (p : DepositParams) (r : DepositAmounts)
    (hla : 0 ≤ p.longTokenAmount) (hsa : 0 ≤ p.shortTokenAmount)
    (hma : 0 ≤ p.marketTokenAmount)
    (hlmin : 0 ≤ p.longToken.prices.minPrice) (hlmax : 0 ≤ p.longToken.prices.maxPrice)
    (hsmin : 0 ≤ p.shortToken.prices.minPrice) (hsmax : 0 ≤ p.shortToken.prices.maxPrice)
    (hmtmin : 0 ≤ p.marketToken.prices.minPrice)
    (hmint : 0 ≤ p.marketInfo.marketTokenMintPrice)
    (hui : 0 ≤ p.uiFeeFactor)
    (hfp : 0 ≤ p.marketInfo.swapFeeFactorForPositiveImpact)
    (hfn : 0 ≤ p.marketInfo.swapFeeFactorForNegativeImpact)
    (hpl : 0 ≤ p.marketInfo.longPoolAmount) (hps : 0 ≤ p.marketInfo.shortPoolAmount)
    (hvp : ∀ v, p.vaultInfo = some v →
      0 ≤ v.indexToken.prices.minPrice ∧ 0 ≤ v.indexToken.prices.maxPrice)
    (h : getDepositAmounts p = some r) :
    (0 ≤ r.longTokenAmount ∧ 0 ≤ r.longTokenUsd ∧
     0 ≤ r.shortTokenAmount ∧ 0 ≤ r.shortTokenUsd ∧
     0 ≤ r.swapFeeUsd ∧ 0 ≤ r.uiFeeUsd) ∧
    (p.strategy = .byMarketToken → 0 ≤ r.marketTokenAmount ∧ 0 ≤ r.marketTokenUsd) ∧
    (0 ≤ r.marketTokenAmount → 0 ≤ r.marketTokenUsd) := by
  have hmidL : 0 ≤ getMidPrice p.longToken.prices := getMidPrice_nonneg hlmin hlmax
  have hmidS : 0 ≤ getMidPrice p.shortToken.prices := getMidPrice_nonneg hsmin hsmax
  have hLUsd : 0 ≤ collateralLongTokenUsd p := convertToUsd_nonneg hla hmidL
  have hSUsd : 0 ≤ collateralShortTokenUsd p := convertToUsd_nonneg hsa hmidS
  rcases hs : p.strategy with _ | _
  · -- byCollaterals
    rw [getDepositAmounts_byCollaterals hs] at h
    by_cases h0 : p.longTokenAmount = 0 ∧ p.shortTokenAmount = 0
    · unfold depositByCollaterals at h
      rw [if_pos h0] at h
      have hr := Option.some_inj.mp h
      subst hr
      refine ⟨⟨?_, ?_, ?_, ?_, ?_, ?_⟩, fun h' => ⟨?_, ?_⟩, fun _ => ?_⟩ <;>
        norm_num [zeroDepositAmounts]
    · by_cases hmv : p.isMarketTokenDeposit = true ∧ p.vaultInfo.isSome = true
      · obtain ⟨hmtd, hvs⟩ := hmv
        obtain ⟨v, hv⟩ := Option.isSome_iff_exists.mp hvs
        obtain ⟨hvmin, hvmax⟩ := hvp v hv
        unfold depositByCollaterals at h
        rw [if_neg h0, hv, hmtd] at h
        have hr := Option.some_inj.mp h
        subst hr
        have hglv : 0 ≤ (convertToTokenAmount
            (convertToUsd p.longTokenAmount p.longToken.decimals
              (getMidPrice p.longToken.prices))
            v.indexToken.decimals v.indexToken.prices.minPrice).getD 0 :=
          convertToTokenAmount_getD_nonneg (convertToUsd_nonneg hla hmidL) hvmin
        have husd : 0 ≤ convertToUsd ((convertToTokenAmount
            (convertToUsd p.longTokenAmount p.longToken.decimals
              (getMidPrice p.longToken.prices))
            v.indexToken.decimals v.indexToken.prices.minPrice).getD 0)
            v.indexToken.decimals v.indexToken.prices.minPrice :=
          convertToUsd_nonneg hglv hvmin
        refine ⟨⟨hla, convertToUsd_nonneg hla hmidL, ?_, ?_, ?_, ?_⟩,
          fun h' => ?_, fun _ => husd⟩
        · norm_num [zeroDepositAmounts]
        · norm_num [zeroDepositAmounts]
        · norm_num [zeroDepositAmounts]
        · norm_num [zeroDepositAmounts]
        · exact absurd h' (by decide)
      · rw [depositByCollaterals_eq_main h0 hmv] at h
        obtain ⟨cL, cS, hcL, hcS, hr⟩ := depositByCollateralsMain_spec h
        subst hr
        have hfeeL : 0 ≤ cL.1 ∧ 0 ≤ cL.2.1 := by
          rcases collateralSideContribution_some_spec hcL with ⟨_, hc⟩ | ⟨hpos, _, h1, h2, _⟩
          · rw [hc]
            exact ⟨le_refl 0, le_refl 0⟩
          · constructor
            · rw [h1]
              split_ifs
              · exact le_refl 0
              · exact getSwapFee_nonneg hLUsd hfp hfn
            · rw [h2]
              exact applyFactor_nonneg hLUsd hui
        have hfeeS : 0 ≤ cS.1 ∧ 0 ≤ cS.2.1 := by
          rcases collateralSideContribution_some_spec hcS with ⟨_, hc⟩ | ⟨hpos, _, h1, h2, _⟩
          · rw [hc]
            exact ⟨le_refl 0, le_refl 0⟩
          · constructor
            · rw [h1]
              split_ifs
              · exact le_refl 0
              · exact getSwapFee_nonneg hSUsd hfp hfn
            · rw [h2]
              exact applyFactor_nonneg hSUsd hui
        refine ⟨⟨hla, hLUsd, hsa, hSUsd, add_nonneg hfeeL.1 hfeeS.1,
          add_nonneg hfeeL.2 hfeeS.2⟩, fun h' => absurd h' (by decide), fun hmta => ?_⟩
        rcases hv : p.vaultInfo with _ | v
        · rw [hv] at hmta
          dsimp only at hmta ⊢
          exact convertToUsd_nonneg hmta hmtmin
        · have hmtd : p.isMarketTokenDeposit = false := by
            rcases hb : p.isMarketTokenDeposit with _ | _
            · rfl
            · exact absurd ⟨hb, by rw [hv]; rfl⟩ hmv
          obtain ⟨hvmin, hvmax⟩ := hvp v hv
          rw [hv] at hmta
          dsimp only at hmta ⊢
          rcases wrapToVaultAmount_cases v (cL.2.2 + cS.2.2)
              (convertToUsd (cL.2.2 + cS.2.2) p.marketToken.decimals
                p.marketToken.prices.minPrice) hmtd with heq | ⟨hpos', hcv⟩
          · rw [heq] at hmta
            exact convertToUsd_nonneg hmta hmtmin
          · obtain ⟨hne, hval⟩ := convertToTokenAmount_some_spec hcv
            by_contra hneg
            push_neg at hneg
            have hnp : convertToUsd (cL.2.2 + cS.2.2) p.marketToken.decimals
                p.marketToken.prices.minPrice * expandDecimals v.indexToken.decimals ≤ 0 :=
              mul_nonpos_of_nonpos_of_nonneg hneg.le (expandDecimals_pos _).le
            have : wrapToVaultAmount p v (cL.2.2 + cS.2.2)
                (convertToUsd (cL.2.2 + cS.2.2) p.marketToken.decimals
                  p.marketToken.prices.minPrice) ≤ 0 := by
              rw [hval]
              exact ediv_nonpos_of_nonpos_of_nonneg hnp hvmax
            linarith
  · -- byMarketToken
    rw [getDepositAmounts_byMarketToken hs] at h
    have hmusd : 0 ≤ byMarketTokenUsd p := by
      unfold byMarketTokenUsd
      rcases hv : p.vaultInfo with _ | v
      · exact convertToUsd_nonneg hma hmint
      · exact convertToUsd_nonneg hma (hvp v hv).1
    by_cases hm : p.marketTokenAmount = 0
    · unfold depositByMarketToken at h
      rw [if_pos hm] at h
      have hr := Option.some_inj.mp h
      subst hr
      refine ⟨⟨?_, ?_, ?_, ?_, ?_, ?_⟩, fun h' => ⟨?_, ?_⟩, fun _ => ?_⟩ <;>
        norm_num [zeroDepositAmounts]
    · by_cases hmv : p.isMarketTokenDeposit = true ∧ p.vaultInfo.isSome = true
      · unfold depositByMarketToken at h
        rw [if_neg hm, if_pos hmv] at h
        obtain ⟨la, hla', hr⟩ := Option.map_eq_some'.mp h
        subst hr
        obtain ⟨hne, hval⟩ := convertToTokenAmount_some_spec hla'
        have hge : 0 ≤ la := by
          rw [hval]
          exact Int.ediv_nonneg (mul_nonneg hmusd (expandDecimals_pos _).le)
            (lt_of_le_of_ne hmtmin (Ne.symm hne)).le
        refine ⟨⟨hge, ?_, ?_, ?_, ?_, ?_⟩, fun _ => ⟨hma, hmusd⟩, fun _ => hmusd⟩ <;>
          norm_num [zeroDepositAmounts]
      · obtain ⟨l0, s0, l1, s1, hsplit, hadj, hlpne, hspne, hr⟩ :=
          depositByMarketToken_main_spec hm hmv h
        subst hr
        obtain ⟨hl0, hs0⟩ := byMarketTokenSplit_nonneg hmusd
          (convertToUsd_nonneg hpl hlmax) (convertToUsd_nonneg hps hsmax)
          (convertToUsd_nonneg hla hmidL) (convertToUsd_nonneg hsa hmidS) hsplit
        have hswf : 0 ≤ (if p.forShift then 0
            else getSwapFee p.marketInfo (byMarketTokenUsd p)
              (getPriceImpactForSwap p.marketInfo p.longToken p.shortToken l0 s0 > 0)) := by
          split_ifs
          · exact le_refl 0
          · exact getSwapFee_nonneg hmusd hfp hfn
        have huif : 0 ≤ applyFactor (byMarketTokenUsd p) p.uiFeeFactor :=
          applyFactor_nonneg hmusd hui
        obtain ⟨hl1, hs1⟩ := adjust_nonneg hl0 hs0 (add_nonneg hswf huif) hadj
        have hmidLpos : 0 ≤ getMidPrice p.longToken.prices := hmidL
        refine ⟨⟨?_, hl1, ?_, hs1, hswf, huif⟩, fun _ => ⟨hma, hmusd⟩, fun _ => hmusd⟩
        · exact Int.ediv_nonneg (mul_nonneg hl1 (expandDecimals_pos _).le)
            (lt_of_le_of_ne hmidL (Ne.symm hlpne)).le
        · exact Int.ediv_nonneg (mul_nonneg hs1 (expandDecimals_pos _).le)
            (lt_of_le_of_ne hmidS (Ne.symm hspne)).le

theorem claim2_nonnegative_outputs_witness :
    ((0 : Int) ≤ 0 ∧ (0 : Int) ≤ 0 ∧ (0 : Int) ≤ 1 ∧ (0 : Int) ≤ 1 ∧
      (0 : Int) ≤ 0 ∧ (0 : Int) ≤ 0) ∧
    (inputEqualHoldings.strategy = .byMarketToken → (0 : Int) ≤ 1 ∧ (0 : Int) ≤ 1) ∧
    ((0 : Int) ≤ 1 → (0 : Int) ≤ 1) :=
  claim2_nonnegative_outputs inputEqualHoldings
    { longTokenAmount := 0, longTokenUsd := 0, shortTokenAmount := 1, shortTokenUsd := 1
      marketTokenAmount := 1, marketTokenUsd := 1, swapFeeUsd := 0, uiFeeUsd := 0
      swapPriceImpactDeltaUsd := 0 }
    (by decide) (by decide) (by decide) (by decide) (by decide) (by decide) (by decide)
    (by decide) (by decide) (by decide) (by decide) (by decide) (by decide) (by decide)
    (fun v hv => by simp [inputEqualHoldings] at hv) (by decide)

/-! ### Monotonicity of the per-side mint in the UI fee -/

theorem getMarketTokenAmountByCollateral_anti_mono_ui {m : MarketInfo}
    {mt tIn tOut : TokenData} {amount delta sf ui1 ui2 v1 v2 : Int}
    (hIn : 0 < tIn.prices.minPrice) (hmint : 0 ≤ m.marketTokenMintPrice)
    (hui : ui1 ≤ ui2)
    (h1 : getMarketTokenAmountByCollateral m mt tIn tOut amount delta sf ui1 = some v1)
    (h2 : getMarketTokenAmountByCollateral m mt tIn tOut amount delta sf ui2 = some v2) :
    v2 ≤ v1 := by
  have hA : ui1 * expandDecimals tIn.decimals / tIn.prices.minPrice ≤
      ui2 * expandDecimals tIn.decimals / tIn.prices.minPrice :=
    Int.ediv_le_ediv hIn (mul_le_mul_of_nonneg_right hui (expandDecimals_pos _).le)
  rcases lt_or_le 0 delta with hd | hd
  · rw [getMarketTokenAmountByCollateral_pos_eq m mt tIn tOut amount delta sf ui1
      hIn.ne' hd] at h1
    rw [getMarketTokenAmountByCollateral_pos_eq m mt tIn tOut amount delta sf ui2
      hIn.ne' hd] at h2
    have e1 := Option.some_inj.mp h1
    have e2 := Option.some_inj.mp h2
    have hmono : usdToMarketTokenAmount m mt
        (convertToUsd
          (amount - sf * expandDecimals tIn.decimals / tIn.prices.minPrice
            - ui2 * expandDecimals tIn.decimals / tIn.prices.minPrice)
          tIn.decimals tIn.prices.minPrice) ≤
        usdToMarketTokenAmount m mt
          (convertToUsd
            (amount - sf * expandDecimals tIn.decimals / tIn.prices.minPrice
              - ui1 * expandDecimals tIn.decimals / tIn.prices.minPrice)
            tIn.decimals tIn.prices.minPrice) :=
      usdToMarketTokenAmount_mono hmint (convertToUsd_mono hIn.le (by linarith))
    rw [← e1, ← e2]
    linarith
  · rw [getMarketTokenAmountByCollateral_nonpos_eq m mt tIn tOut amount delta sf ui1
      hIn.ne' hd] at h1
    rw [getMarketTokenAmountByCollateral_nonpos_eq m mt tIn tOut amount delta sf ui2
      hIn.ne' hd] at h2
    have e1 := Option.some_inj.mp h1
    have e2 := Option.some_inj.mp h2
    rw [← e1, ← e2]
    exact usdToMarketTokenAmount_mono hmint (convertToUsd_mono hIn.le (by linarith))

theorem collateralSideContribution_mono {p : DepositParams} {f1 f2 : Int}
    {tIn tOut : TokenData} {amount sideUsd total delta : Int} {c1 c2 : Int × Int × Int}
    (hIn : 0 < tIn.prices.minPrice) (hmint : 0 ≤ p.marketInfo.marketTokenMintPrice)
    (hside : 0 ≤ sideUsd) (hf : f1 ≤ f2)
    (h1 : collateralSideContribution { p with uiFeeFactor := f1 } tIn tOut amount sideUsd
      total delta = some c1)
    (h2 : collateralSideContribution { p with uiFeeFactor := f2 } tIn tOut amount sideUsd
      total delta = some c2) :
    c1.2.1 ≤ c2.2.1 ∧ c2.2.2 ≤ c1.2.2 ∧ c1.1 = c2.1 ∧
    (sideUsd > 0 → PRECISION ≤ sideUsd * (f2 - f1) → c1.2.1 < c2.2.1) := by
  by_cases hpos : sideUsd > 0
  · rcases collateralSideContribution_some_spec h1 with ⟨hc, _⟩ | ⟨_, _, hsf1, hui1, hm1⟩
    · exact absurd hpos hc
    rcases collateralSideContribution_some_spec h2 with ⟨hc, _⟩ | ⟨_, _, hsf2, hui2, hm2⟩
    · exact absurd hpos hc
    have hui1' : c1.2.1 = applyFactor sideUsd f1 := hui1
    have hui2' : c2.2.1 = applyFactor sideUsd f2 := hui2
    have hsf : c1.1 = c2.1 := by
      rw [hsf1, hsf2]
    refine ⟨?_, ?_, hsf, fun _ hth => ?_⟩
    · rw [hui1', hui2']
      exact applyFactor_mono hside hf
    · have hm2' : getMarketTokenAmountByCollateral p.marketInfo p.marketToken tIn tOut
          amount (delta * sideUsd / total) c1.1 (applyFactor sideUsd f2) = some c2.2.2 := by
        rw [hsf]
        exact hui2' ▸ hm2
      have hm1' : getMarketTokenAmountByCollateral p.marketInfo p.marketToken tIn tOut
          amount (delta * sideUsd / total) c1.1 (applyFactor sideUsd f1) = some c1.2.2 :=
        hui1' ▸ hm1
      exact getMarketTokenAmountByCollateral_anti_mono_ui hIn hmint
        (applyFactor_mono hside hf) hm1' hm2'
    · rw [hui1', hui2']
      exact applyFactor_strict hth
  · rcases collateralSideContribution_some_spec h1 with ⟨_, hc1⟩ | ⟨hc, _⟩
    · rcases collateralSideContribution_some_spec h2 with ⟨_, hc2⟩ | ⟨hc, _⟩
      · rw [hc1, hc2]
        exact ⟨le_refl 0, le_refl 0, rfl, fun hp _ => absurd hp hpos⟩
      · exact absurd hc hpos
    · exact absurd hc hpos

/-- C4 counterexample: two defects in one. (tiny notional) the call with
uiFeeFactor 1 instead of 0 reports the same (zero) uiFeeUsd despite a
positive fee notional, so the increase is not strict; (vault wrap) with a
vault present, raising uiFeeFactor from 0 to 50% RAISES marketTokenAmount
from 1 to 10, because the smaller GLV conversion fails the positivity
guard and the unwrapped GM amount is kept. -/
theorem claim4_counterexample :
    inputTinyNotionalFee.uiFeeFactor > inputTinyNotional.uiFeeFactor ∧
    ((getDepositAmounts inputTinyNotional).getD zeroDepositAmounts).longTokenUsd > 0 ∧
    ((getDepositAmounts inputTinyNotionalFee).getD zeroDepositAmounts).uiFeeUsd =
      ((getDepositAmounts inputTinyNotional).getD zeroDepositAmounts).uiFeeUsd ∧
    inputVaultFeeJumpFee.uiFeeFactor > inputVaultFeeJump.uiFeeFactor ∧
    ((getDepositAmounts inputVaultFeeJumpFee).getD zeroDepositAmounts).marketTokenAmount >
      ((getDepositAmounts inputVaultFeeJump).getD zeroDepositAmounts).marketTokenAmount := by
  decide

/-- C4 amended: in the byCollaterals strategy without a vault, for two
calls differing only in uiFeeFactor (valid non-negative inputs), the larger
factor yields a uiFeeUsd that is at least as large — strictly larger once
the factor increase times the positive long-side notional reaches the fee
precision — and a marketTokenAmount that is not larger.  (With a vault the
wrap's positivity guard can invert the direction, and strictness fails for
small notionals; see the counterexample.) -/
theorem claim4_fee_monotonicity (p : DepositParams) (f1 f2 : Int) (r1 r2 : DepositAmounts)
    (hs : p.strategy = .byCollaterals) (hv : p.vaultInfo = none)
    (hf : f1 ≤ f2)
    (hla : 0 ≤ p.longTokenAmount) (hsa : 0 ≤ p.shortTokenAmount)
    (hlmin : 0 < p.longToken.prices.minPrice) (hlmax : 0 ≤ p.longToken.prices.maxPrice)
    (hsmin : 0 < p.shortToken.prices.minPrice) (hsmax : 0 ≤ p.shortToken.prices.maxPrice)
    (hmint : 0 ≤ p.marketInfo.marketTokenMintPrice)
    (h1 : getDepositAmounts { p with uiFeeFactor := f1 } = some r1)
    (h2 : getDepositAmounts { p with uiFeeFactor := f2 } = some r2) :
    r1.uiFeeUsd ≤ r2.uiFeeUsd ∧
    r2.marketTokenAmount ≤ r1.marketTokenAmount ∧
    (0 < collateralLongTokenUsd p → PRECISION ≤ collateralLongTokenUsd p * (f2 - f1) →
      r1.uiFeeUsd < r2.uiFeeUsd) := by
  have hLUsd : 0 ≤ collateralLongTokenUsd p :=
    convertToUsd_nonneg hla (getMidPrice_nonneg hlmin.le hlmax)
  have hSUsd : 0 ≤ collateralShortTokenUsd p :=
    convertToUsd_nonneg hsa (getMidPrice_nonneg hsmin.le hsmax)
  have hs1 : ({ p with uiFeeFactor := f1 } : DepositParams).strategy = .byCollaterals := hs
  have hs2 : ({ p with uiFeeFactor := f2 } : DepositParams).strategy = .byCollaterals := hs
  rw [getDepositAmounts_byCollaterals hs1] at h1
  rw [getDepositAmounts_byCollaterals hs2] at h2
  by_cases h0 : p.longTokenAmount = 0 ∧ p.shortTokenAmount = 0
  · unfold depositByCollaterals at h1 h2
    rw [if_pos h0] at h1 h2
    have e1 := Option.some_inj.mp h1
    have e2 := Option.some_inj.mp h2
    subst e1
    subst e2
    have hzero : collateralLongTokenUsd p = 0 := by
      unfold collateralLongTokenUsd
      rw [h0.1, convertToUsd_zero]
    refine ⟨le_refl _, le_refl _, fun hc _ => ?_⟩
    rw [hzero] at hc
    exact absurd hc (lt_irrefl 0)
  · have hno1 : ¬(({ p with uiFeeFactor := f1 } : DepositParams).isMarketTokenDeposit = true ∧
        ({ p with uiFeeFactor := f1 } : DepositParams).vaultInfo.isSome = true) := by
      have hv' : ({ p with uiFeeFactor := f1 } : DepositParams).vaultInfo = none := hv
      rw [hv']
      simp
    have hno2 : ¬(({ p with uiFeeFactor := f2 } : DepositParams).isMarketTokenDeposit = true ∧
        ({ p with uiFeeFactor := f2 } : DepositParams).vaultInfo.isSome = true) := by
      have hv' : ({ p with uiFeeFactor := f2 } : DepositParams).vaultInfo = none := hv
      rw [hv']
      simp
    have h01 : ¬(({ p with uiFeeFactor := f1 } : DepositParams).longTokenAmount = 0 ∧
        ({ p with uiFeeFactor := f1 } : DepositParams).shortTokenAmount = 0) := h0
    have h02 : ¬(({ p with uiFeeFactor := f2 } : DepositParams).longTokenAmount = 0 ∧
        ({ p with uiFeeFactor := f2 } : DepositParams).shortTokenAmount = 0) := h0
    rw [depositByCollaterals_eq_main h01 hno1] at h1
    rw [depositByCollaterals_eq_main h02 hno2] at h2
    obtain ⟨cL1, cS1, hcL1, hcS1, hr1⟩ := depositByCollateralsMain_spec h1
    obtain ⟨cL2, cS2, hcL2, hcS2, hr2⟩ := depositByCollateralsMain_spec h2
    subst hr1
    subst hr2
    obtain ⟨huiL, hmintL, hsfL, hstrictL⟩ :=
      collateralSideContribution_mono hlmin hmint hLUsd hf hcL1 hcL2
    obtain ⟨huiS, hmintS, hsfS, hstrictS⟩ :=
      collateralSideContribution_mono hsmin hmint hSUsd hf hcS1 hcS2
    refine ⟨?_, ?_, fun hcpos hth => ?_⟩
    · dsimp only
      linarith
    · dsimp only
      rw [hv]
      dsimp only
      linarith
    · dsimp only
      have h1 := hstrictL hcpos hth
      linarith

theorem claim4_fee_monotonicity_witness :
    ((0 : Int) ≤ 20 ∧ (0 : Int) ≤ 20 ∧ (0 : Int) < 20) := by
  have T := claim4_fee_monotonicity inputOverFee 0 (10 ^ 30)
    { longTokenAmount := 10, longTokenUsd := 20, shortTokenAmount := 0, shortTokenUsd := 0
      marketTokenAmount := 20, marketTokenUsd := 20, swapFeeUsd := 0, uiFeeUsd := 0
      swapPriceImpactDeltaUsd := 0 }
    { longTokenAmount := 10, longTokenUsd := 20, shortTokenAmount := 0, shortTokenUsd := 0
      marketTokenAmount := 0, marketTokenUsd := 0, swapFeeUsd := 0, uiFeeUsd := 20
      swapPriceImpactDeltaUsd := 0 }
    rfl rfl (by norm_num) (by decide) (by decide) (by decide) (by decide) (by decide)
    (by decide) (by decide) (by decide) (by decide)
  exact ⟨T.1, T.2.1, T.2.2 (by decide) (by decide)⟩

end GmxDeposit
